import Mathlib

/-!
# The coordinator of the sharded flat-file store

A shallow embedding of `public/instance.go` (the coordinator, called the
"public" instance in the source) and of the storage side of
`private/instance.go` (a storage node, the "private" instance).

* The coordinator's mutable fields (`currentIdx`, `privateQueue`, `privateSet`,
  `fileDb`) form the record `Public`; a handler is a function from the state
  before the request to the state after it, together with the calls it made on
  its `http.ResponseWriter` and the calls it made to `saveChunk` / `loadChunk`.
* Go maps are association lists read with `List.lookup`; an assignment
  `m[k] = v` puts the binding in front, where it shadows any older one.
* `currentIdx` and the loop index are Go `int`s and are integers here (they
  stay below twice the length of the queue, far from the 64-bit bound, so no
  wrap-around is modelled); `%` on them is Go's truncated remainder
  (`Int.tmod`). Reading a slice outside its bounds and `rand.Intn` of a
  non-positive number are run-time panics and are results of type `Panic`.
* The HTTP client of the coordinator is a parameter (`Transport`): whether
  `http.NewRequest` accepts a URL and what a node answers is whatever the
  transport says, so that statements hold for every behaviour of the library and
  of the network. `saveChunk` ends the process through `logger.Fatal` when the
  request cannot be built; a handler therefore returns, panics, or ends the
  process (`Abort`). `Transport.recording` keeps the list of the requests that
  reach the network. `Cluster.transport` is the instance in which every
  address is served by the handler of `private/instance.go` over a flat
  directory.
* The handlers run under the locks of the source
  (`fileDbMx`, `privateMx`), which make the state changes of one request atomic
  with respect to those of another; requests are therefore taken one after
  another. The five shard transfers of one write run concurrently in the
  source; here they are issued in index order.
-/

namespace Storage

/-- A byte slice, `[]byte`. -/
abbrev Bytes := List UInt8

/-- The conversion `[]byte(s)`: the UTF-8 encoding of a string. -/
def bytesOf (s : String) : Bytes := s.toList.flatMap String.utf8EncodeChar

/-! ## `common` -/

namespace common

def ErrFileNameEmpty : String := "file name can not be empty"
def ErrExpectHttpNoContent : String := "on no error expect http 204 no content "
def ErrExpectHttpOK : String := "on no error expect http 200 OK "

/-- Modelled from the spec: the declaration of `common.PrivateInfo` is not among
the sources; the registration body is `{id, port}`, and the code reads `pi.ID` as
a string and `pi.Port` as a `uint32`. -/
structure PrivateInfo where
  ID : String
  Port : Nat
deriving DecidableEq, Repr

end common

/-! ## `net/http` -/

namespace http

def StatusOK : Nat := 200
def StatusNoContent : Nat := 204
def StatusBadRequest : Nat := 400
def StatusNotFound : Nat := 404
def StatusInternalServerError : Nat := 500
def StatusServiceUnavailable : Nat := 503

/-- One call made by a handler on its `http.ResponseWriter`. -/
inductive Call where
  | Write (b : Bytes)
  | WriteHeader (statusCode : Nat)
  | HeaderSet (key value : String)
deriving DecidableEq, Repr

/-- The status code the client receives, given the calls of the handler in
order: that of the first `WriteHeader`, or 200 when a body `Write` comes before
any `WriteHeader` (the first `Write` sends the header with 200, a later
`WriteHeader` is superfluous) and when the handler returns without either. -/
def sentStatus : List Call → Nat
  | [] => StatusOK
  | Call.Write _ :: _ => StatusOK
  | Call.WriteHeader c :: _ => c
  | Call.HeaderSet _ _ :: rest => sentStatus rest

/-- The status codes that carry no body (`bodyAllowedForStatus` of net/http). -/
def bodyAllowedForStatus (status : Nat) : Bool :=
  if 100 ≤ status ∧ status ≤ 199 then false
  else if status = 204 then false
  else if status = 304 then false
  else true

/-- Every byte passed to `Write`, in order. -/
def written : List Call → Bytes
  | [] => []
  | Call.Write b :: rest => b ++ written rest
  | _ :: rest => written rest

/-- The body the client receives: what was written, when the status sent allows
a body. -/
def sentBody (calls : List Call) : Bytes :=
  if bodyAllowedForStatus (sentStatus calls) then written calls else []

/-- What an HTTP client gets back from `Do` / `Get` when the transport did not
fail: the status code, and the result of reading the body to its end. -/
structure Response where
  StatusCode : Nat
  Body : Except String Bytes

end http

/-! ## `math/rand` and slices -/

/-- A run-time panic of the Go program. -/
inductive Panic where
  | indexOutOfRange
  | invalidArgumentToIntn
deriving DecidableEq, Repr

namespace rand

/-- The call `rand.Intn(n)`: panics when `n <= 0`, else a number of `[0, n)`. The
random source is the parameter `seed`, which ranges over all the naturals, so
that every number of `[0, n)` is a possible result. -/
def Intn (n : Int) (seed : Nat) : Except Panic Int :=
  if n ≤ 0 then Except.error Panic.invalidArgumentToIntn else Except.ok ((seed : Int) % n)

end rand

/-- The read `xs[i]` of a slice at an `int` index. -/
def index {α : Type} (xs : List α) (i : Int) : Except Panic α :=
  if i < 0 then Except.error Panic.indexOutOfRange
  else match xs[i.toNat]? with
    | some x => Except.ok x
    | none => Except.error Panic.indexOutOfRange

/-! ## `public`: the coordinator -/

/-- The type `net.TCPAddr`, without the zone (empty for a "tcp4" address). -/
structure TCPAddr where
  IP : String
  Port : Nat
deriving DecidableEq, Repr, Inhabited

abbrev PrivateID := String

structure Private where
  ID : PrivateID
  Addr : TCPAddr
deriving DecidableEq, Repr, Inhabited

/-- The mutable fields of the coordinator. -/
structure Public where
  currentIdx : Int
  privateQueue : List PrivateID
  privateSet : List (PrivateID × Private)
  fileDb : List (String × List PrivateID)
deriving DecidableEq, Repr

/-- The coordinator as `NewInstance` returns it. -/
def NewInstance : Public :=
  { currentIdx := 0, privateQueue := [], privateSet := [], fileDb := [] }

/-- The HTTP library and the network as the coordinator sees them. `ω` is the
state of the world outside the coordinator. `NewRequest addr name` says whether
`http.NewRequest` builds a request for the URL `http://addr/?filename=name`, into
which the source puts the name without encoding it (it refuses, for one, a URL
with a control character). `Put w addr name body` is `cl.Do` on the request
`PUT http://addr/?filename=name` with that body, `Get w addr name` is
`cl.Get("http://addr/?filename=name")`; each returns `Except.error` when the
client returns an error. -/
structure Transport (ω : Type) where
  NewRequest : TCPAddr → String → Bool
  Put : ω → TCPAddr → String → Bytes → Except String http.Response × ω
  Get : ω → TCPAddr → String → Except String http.Response × ω

/-- A call of `saveChunk` or of `loadChunk`: its arguments and what it returned
(`err` is the error of `saveChunk`, `none` for `nil`; `res` the bytes of
`loadChunk`, `none` when it returned an error). -/
inductive ChunkCall where
  | save (id : PrivateID) (chunk : Bytes) (fileName : String) (chunkInd : Nat)
      (err : Option String)
  | load (id : PrivateID) (fileName : String) (chunkInd : Nat) (res : Option Bytes)
deriving DecidableEq, Repr

/-- What a handler leaves behind: the coordinator after the request, the calls
made on the response writer, the chunk calls made, each list in order, and the
world outside. -/
structure Outcome (ω : Type) where
  p : Public
  w : List http.Call
  chunks : List ChunkCall
  net : ω

/-- How a handler ends when it does not return: by a run-time panic, or by
`logger.Fatal`, which ends the process; `out` is then what the handler had done
up to that point (the coordinator as it was left, the calls made so far, the
world outside). -/
inductive Abort (ω : Type) where
  | panic (e : Panic)
  | fatal (out : Outcome ω)

def checkFileName (fileName : String) : Option String :=
  if fileName = "" then some common.ErrFileNameEmpty else none

/-- The verb `%02d` for a chunk index. -/
def pad2 (chunkInd : Nat) : String :=
  if chunkInd < 10 then "0" ++ toString chunkInd else toString chunkInd

/-- The name a chunk has on its node: `fmt.Sprintf("%s.%02d", fileName, chunkInd)`. -/
def chunkName (fileName : String) (chunkInd : Nat) : String :=
  fileName ++ "." ++ pad2 chunkInd

/-- The names of the five chunks of a file on their nodes, written out. -/
def chunkNames (fileName : String) : List String :=
  [fileName ++ ".00", fileName ++ ".01", fileName ++ ".02", fileName ++ ".03",
   fileName ++ ".04"]

/-- The lookup `p.privateSet[id].Addr`; a missing key gives the zero value. -/
def Public.addrOf (p : Public) (id : PrivateID) : TCPAddr :=
  match p.privateSet.lookup id with
  | some prv => prv.Addr
  | none => { IP := "", Port := 0 }

/-- The method `saveChunk`. The result is `none` when `http.NewRequest` returns an
error: the source then calls `p.logger.Fatal`, which ends the process. Otherwise
it is the error returned (`none` for `nil`) and the world after the request. -/
def Public.saveChunk {ω : Type} (T : Transport ω) (p : Public) (id : PrivateID)
    (chunk : Bytes) (fileName : String) (chunkInd : Nat) (net : ω) :
    Option (Option String × ω) :=
  let fileName := chunkName fileName chunkInd
  let addr := p.addrOf id
  if T.NewRequest addr fileName then
    match T.Put net addr fileName chunk with
    | (Except.error err, net) => some (some err, net)
    | (Except.ok resp, net) =>
      if resp.StatusCode ≠ http.StatusNoContent then
        some (some common.ErrExpectHttpNoContent, net)
      else some (none, net)
  else none

def Public.loadChunk {ω : Type} (T : Transport ω) (p : Public) (id : PrivateID)
    (fileName : String) (chunkInd : Nat) (net : ω) : Except String Bytes × ω :=
  let fileName := chunkName fileName chunkInd
  let addr := p.addrOf id
  match T.Get net addr fileName with
  | (Except.error err, net) => (Except.error err, net)
  | (Except.ok resp, net) =>
    if resp.StatusCode ≠ http.StatusOK then (Except.error common.ErrExpectHttpOK, net)
    else (resp.Body, net)

/-- The request data `register` reads: the result of decoding the JSON body and
the result of `net.ResolveTCPAddr("tcp4", r.RemoteAddr)`. -/
structure RegisterRequest where
  Body : Except String common.PrivateInfo
  RemoteAddr : Except String TCPAddr

def Public.register (p : Public) (r : RegisterRequest) : Public × List http.Call :=
  match r.Body with
  | Except.error err =>
    (p, [http.Call.Write (bytesOf "error parsing register request:"),
         http.Call.Write (bytesOf err),
         http.Call.WriteHeader http.StatusBadRequest])
  | Except.ok pi =>
    match r.RemoteAddr with
    | Except.error err =>
      (p, [http.Call.Write (bytesOf "error parsing remote addr:"),
           http.Call.Write (bytesOf err),
           http.Call.WriteHeader http.StatusBadRequest])
    | Except.ok addr =>
      -- under privateMx.RLock
      if (p.privateSet.lookup pi.ID).isSome then
        (p, [http.Call.WriteHeader http.StatusNoContent])
      else
        -- under privateMx.Lock
        let p :=
          if (p.privateSet.lookup pi.ID).isSome then p
          else
            { p with
              privateQueue := p.privateQueue ++ [pi.ID]
              privateSet := (pi.ID, { ID := pi.ID, Addr := { addr with Port := pi.Port } })
                :: p.privateSet }
        (p, [http.Call.WriteHeader http.StatusNoContent])

/-- The loop `for i := 0; i < 5; i++` of `saveFile` that fills `privs`: `k`
iterations are left, `idx` is the next position in the queue. -/
def placeLoop (privateQueue : List PrivateID) :
    Nat → Int → List PrivateID → Except Panic (List PrivateID)
  | 0, _, privs => Except.ok privs
  | k + 1, idx, privs =>
    match index privateQueue idx with
    | Except.error e => Except.error e
    | Except.ok id =>
      let idx := idx + 1
      let idx := if idx ≥ (privateQueue.length : Int) then 0 else idx
      placeLoop privateQueue k idx (privs ++ [id])

/-- The loop `for i := 0; i < 4; i++` of `saveFile`: `k` iterations are left,
`i` is the chunk index, `buf` what is left of the payload, `errs` the entries
`errs[0], …, errs[i-1]` and `calls` the calls made so far. It returns the entries
of `errs`, the calls made, the rest of `buf` and the world. -/
def Public.sendLoop {ω : Type} (T : Transport ω) (p : Public) (privs : List PrivateID)
    (fileName : String) (chunkSize : Nat) :
    Nat → Nat → Bytes → List (Option String) → List ChunkCall → ω →
      Except (Abort ω) (List (Option String) × List ChunkCall × Bytes × ω)
  | 0, _, buf, errs, calls, net => Except.ok (errs, calls, buf, net)
  | k + 1, i, buf, errs, calls, net =>
    let chunk := buf.take chunkSize
    let buf := buf.drop chunkSize
    match index privs i with
    | Except.error e => Except.error (Abort.panic e)
    | Except.ok id =>
      match p.saveChunk T id chunk fileName i net with
      | none => Except.error (Abort.fatal ⟨p, [], calls, net⟩)
      | some (err, net) =>
        Public.sendLoop T p privs fileName chunkSize k (i + 1) buf (errs ++ [err])
          (calls ++ [ChunkCall.save id chunk fileName i err]) net

/-- The handler of `PUT /?filename=<fileName>`. `body` is the result of
`ioutil.ReadAll(r.Body)`, `seed` the random source. -/
def Public.saveFile {ω : Type} (T : Transport ω) (p : Public) (fileName : String)
    (body : Except String Bytes) (seed : Nat) (net : ω) : Except (Abort ω) (Outcome ω) :=
  match checkFileName fileName with
  | some err =>
    Except.ok ⟨p, [http.Call.Write (bytesOf err),
      http.Call.WriteHeader http.StatusBadRequest], [], net⟩
  | none =>
  -- under fileDbMx.RLock
  if (p.fileDb.lookup fileName).isSome then
    Except.ok ⟨p, [http.Call.Write (bytesOf "file already exists and cannot be rewritten"),
      http.Call.WriteHeader http.StatusBadRequest], [], net⟩
  else
  -- under fileDbMx.Lock
  if (p.fileDb.lookup fileName).isSome then
    Except.ok ⟨p, [http.Call.Write (bytesOf "file already exists and cannot be rewritten"),
      http.Call.WriteHeader http.StatusBadRequest], [], net⟩
  else
  -- under privateMx.Lock
  if p.privateQueue.length < 5 then
    Except.ok ⟨p, [http.Call.Write (bytesOf "no quorum, service not ready"),
      http.Call.WriteHeader http.StatusServiceUnavailable], [], net⟩
  else
  let idx := p.currentIdx
  match rand.Intn ((p.privateQueue.length : Int) >>> (1 : Nat)) seed with
  | Except.error e => Except.error (Abort.panic e)
  | Except.ok r =>
  let currentIdx := p.currentIdx + (1 + r)
  let currentIdx := Int.tmod currentIdx (p.privateQueue.length : Int)
  match placeLoop p.privateQueue 5 idx [] with
  | Except.error e => Except.error (Abort.panic e)
  | Except.ok privs =>
  let p := { p with currentIdx := currentIdx, fileDb := (fileName, privs) :: p.fileDb }
  match body with
  | Except.error _ =>
    Except.ok ⟨p, [http.Call.Write (bytesOf "cant read file from request"),
      http.Call.WriteHeader http.StatusInternalServerError], [], net⟩
  | Except.ok buf =>
  if buf.length < 5 then
    match index privs 0 with
    | Except.error e => Except.error (Abort.panic e)
    | Except.ok id =>
      match p.saveChunk T id buf fileName 0 net with
      | none => Except.error (Abort.fatal ⟨p, [], [], net⟩)
      | some (err, net) => Except.ok ⟨p, [], [ChunkCall.save id buf fileName 0 err], net⟩
  else
    let chunkSize := buf.length / 5
    match p.sendLoop T privs fileName chunkSize 4 0 buf [] [] net with
    | Except.error e => Except.error e
    | Except.ok (errs, calls, buf, net) =>
      match index privs 4 with
      | Except.error e => Except.error (Abort.panic e)
      | Except.ok id =>
        match p.saveChunk T id buf fileName 4 net with
        | none => Except.error (Abort.fatal ⟨p, [], calls, net⟩)
        | some (err, net) =>
          let errs := errs ++ [err]
          let calls := calls ++ [ChunkCall.save id buf fileName 4 err]
          let failed := errs.any Option.isSome
          if failed then
            Except.ok ⟨p, [http.Call.Write (bytesOf "cant save file"),
              http.Call.WriteHeader http.StatusServiceUnavailable], calls, net⟩
          else
            Except.ok ⟨p, [http.Call.WriteHeader http.StatusNoContent], calls, net⟩

/-- The loop `for i := range privs` of `loadFile`: `privs` is what is left of the
placement, `i` the chunk index, `buf` the bytes gathered so far. It returns the
calls made on the response writer inside the loop, `buf` on leaving the loop,
the chunk calls made and the world. -/
def Public.loadLoop {ω : Type} (T : Transport ω) (p : Public) (fileName : String) :
    List PrivateID → Nat → Bytes → ω → List http.Call × Bytes × List ChunkCall × ω
  | [], _, buf, net => ([], buf, [], net)
  | id :: privs, i, buf, net =>
    match p.loadChunk T id fileName i net with
    | (Except.error _, net) =>
      -- break
      ([http.Call.Write (bytesOf "something wrong"),
        http.Call.WriteHeader http.StatusInternalServerError],
       buf, [ChunkCall.load id fileName i none], net)
    | (Except.ok t, net) =>
      match Public.loadLoop T p fileName privs (i + 1) (buf ++ t) net with
      | (w, buf, calls, net) => (w, buf, ChunkCall.load id fileName i (some t) :: calls, net)

/-- The handler of `GET /?filename=<fileName>`. -/
def Public.loadFile {ω : Type} (T : Transport ω) (p : Public) (fileName : String)
    (net : ω) : Outcome ω :=
  match checkFileName fileName with
  | some err =>
    ⟨p, [http.Call.Write (bytesOf err), http.Call.WriteHeader http.StatusBadRequest], [], net⟩
  | none =>
  -- under fileDbMx.RLock
  match p.fileDb.lookup fileName with
  | none =>
    ⟨p, [http.Call.Write (bytesOf "file not found"),
      http.Call.WriteHeader http.StatusNotFound], [], net⟩
  | some privs =>
    match p.loadLoop T fileName privs 0 [] net with
    | (w, buf, calls, net) =>
      ⟨p, w ++ [http.Call.Write buf,
                http.Call.HeaderSet "content-type" "application/octet-stream",
                http.Call.WriteHeader http.StatusOK], calls, net⟩

/-- The request data the coordinator's handlers read: the method, `r.URL.Path`,
`r.URL.Query().Get("filename")`, the result of `ioutil.ReadAll(r.Body)`, and
what `register` reads. -/
structure Request where
  Method : String
  Path : String
  filename : String
  Body : Except String Bytes
  registration : RegisterRequest

def Public.handler {ω : Type} (T : Transport ω) (p : Public) (r : Request) (seed : Nat)
    (net : ω) : Except (Abort ω) (Outcome ω) :=
  if r.Method = "PUT" then p.saveFile T r.filename r.Body seed net
  else if r.Method = "GET" then Except.ok (p.loadFile T r.filename net)
  else if r.Method = "POST" ∧ r.Path = "/register" then
    match p.register r.registration with
    | (p, w) => Except.ok ⟨p, w, [], net⟩
  else
    Except.ok ⟨p, [http.Call.Write (bytesOf "method not supported"),
      http.Call.WriteHeader http.StatusBadRequest], [], net⟩

/-! ## `private`: a storage node -/

namespace Node

/-- The directory `p.path` of a node, flat: the content of each file by name. -/
abbrev Dir := String → Option Bytes

def checkFileName (fileName : String) : Option String :=
  if fileName = "" then some common.ErrFileNameEmpty else none

/-- The method `saveFile` of a node: `os.Create` makes or truncates the file,
`io.Copy` fills it with the body. The directory here takes every name that is not
empty; `os.Create` refuses some (a name with a path separator, a name longer than
the file system allows), none of them among the names of `plainName`. -/
def saveFile (dir : Dir) (fileName : String) (body : Bytes) : Option String × Dir :=
  match checkFileName fileName with
  | some err => (some err, dir)
  | none => (none, Function.update dir fileName (some body))

/-- The method `loadFile` of a node: `os.Open` fails on a file that is not
there. -/
def loadFile (dir : Dir) (fileName : String) : Except String Bytes :=
  match checkFileName fileName with
  | some err => Except.error err
  | none =>
    match dir fileName with
    | none => Except.error ("open " ++ fileName ++ ": no such file or directory")
    | some content => Except.ok content

/-- The text of `os.ErrNotExist`. -/
def ErrNotExist : String := "file does not exist"

/-- The handler of a node, for the two methods the coordinator uses. -/
def handler (dir : Dir) (method : String) (fileName : String) (body : Bytes) :
    List http.Call × Dir :=
  if method = "PUT" then
    match saveFile dir fileName body with
    | (some err, dir) =>
      ([http.Call.WriteHeader http.StatusInternalServerError,
        http.Call.Write (bytesOf err)], dir)
    | (none, dir) => ([http.Call.WriteHeader http.StatusNoContent], dir)
  else if method = "GET" then
    match loadFile dir fileName with
    | Except.error err =>
      if err = ErrNotExist then ([http.Call.WriteHeader http.StatusNotFound], dir)
      else
        ([http.Call.WriteHeader http.StatusInternalServerError,
          http.Call.Write (bytesOf err)], dir)
    | Except.ok content =>
      ([http.Call.Write content,
        http.Call.WriteHeader http.StatusOK,
        http.Call.HeaderSet "content-type" "application/octet-stream"], dir)
  else
    ([http.Call.WriteHeader http.StatusBadRequest,
      http.Call.Write (bytesOf "method not supported")], dir)

end Node

/-- The storage nodes by address; `none` where nothing listens. -/
abbrev Cluster := TCPAddr → Option Node.Dir

/-- One request to the node at `addr`, answered by its handler. -/
def Cluster.request (c : Cluster) (addr : TCPAddr) (method fileName : String) (body : Bytes) :
    Except String http.Response × Cluster :=
  match c addr with
  | none => (Except.error "connection refused", c)
  | some dir =>
    match Node.handler dir method fileName body with
    | (w, dir) =>
      (Except.ok { StatusCode := http.sentStatus w, Body := Except.ok (http.sentBody w) },
       Function.update c addr (some dir))

/-- Whether a name has no ASCII control character (a byte below 0x20, or 0x7f):
`url.Parse`, and with it `http.NewRequest`, refuses a URL that has one. -/
def urlAccepted (name : String) : Bool :=
  name.data.all fun c => !(c.toNat < 32 || c.toNat = 127)

/-- The network in which every node runs the handler of `private/instance.go`
over a flat directory, and a request is refused when its name has a control
character. A name reaches its node as written, and the directory takes any name
that is not empty; real nodes do so for the names of `plainName`. -/
def Cluster.transport : Transport Cluster where
  NewRequest _ fileName := urlAccepted fileName
  Put c addr fileName body := c.request addr "PUT" fileName body
  Get c addr fileName :=
    if urlAccepted fileName then c.request addr "GET" fileName []
    else (Except.error "net/url: invalid control character in URL", c)

/-- A file name of at most 200 letters, digits, `-`, `_` and `.` of ASCII: such
a name and its chunk names stand in a URL as they are and are file names of a
flat directory. -/
def plainName (fileName : String) : Bool :=
  decide (fileName.data.length ≤ 200) &&
  fileName.data.all fun c =>
    (48 ≤ c.toNat && c.toNat ≤ 57) || (65 ≤ c.toNat && c.toNat ≤ 90) ||
    (97 ≤ c.toNat && c.toNat ≤ 122) || c.toNat = 45 || c.toNat = 95 || c.toNat = 46

/-- A request as the network gets it: the method, the address and the name of
the URL `http://addr/?filename=name`, and the body. -/
structure WireRequest where
  method : String
  addr : TCPAddr
  name : String
  body : Bytes
deriving DecidableEq, Repr

/-- The transport `T` with a record of the requests that reach the network: every
`Put` and every `Get` adds its request at the end of the list and answers as `T`
does. -/
def Transport.recording {ω : Type} (T : Transport ω) : Transport (ω × List WireRequest) where
  NewRequest := T.NewRequest
  Put w addr fileName body :=
    match T.Put w.1 addr fileName body with
    | (resp, net) => (resp, (net, w.2 ++ [⟨"PUT", addr, fileName, body⟩]))
  Get w addr fileName :=
    match T.Get w.1 addr fileName with
    | (resp, net) => (resp, (net, w.2 ++ [⟨"GET", addr, fileName, []⟩]))

/-! ## Reachable states and closed forms

`Steps` and `Reachable` say which states the handlers lead to. `cyclicFrom`,
`Public.placement`, `Public.nextIdx`, `Public.reserve`, `split5` and
`Public.sentChunk` and `Public.sendAll` are closed forms of what `saveFile`
computes; the theorems `placeLoop_placement`, `saveChunk_accepted`,
`saveFile_readError`, `saveFile_small` and `saveFile_large` prove that the handler
computes them. -/

/-- The relation `Steps p q`: the coordinator gets from the state `p` to the
state `q` by handling requests one after another, whatever the requests, the
random source and the network. -/
inductive Steps (p : Public) : Public → Prop
  | refl : Steps p p
  | register {q : Public} (r : RegisterRequest) :
      Steps p q → Steps p (q.register r).1
  | saveFile {ω : Type} (T : Transport ω) {q : Public} (fileName : String)
      (body : Except String Bytes) (seed : Nat) (net : ω) {out : Outcome ω} :
      Steps p q → q.saveFile T fileName body seed net = Except.ok out → Steps p out.p
  | loadFile {ω : Type} (T : Transport ω) {q : Public} (fileName : String) (net : ω) :
      Steps p q → Steps p (q.loadFile T fileName net).p

/-- The states of the coordinator: those it gets to from the one `NewInstance`
returns. -/
def Reachable (p : Public) : Prop := Steps NewInstance p

/-- The `k` entries of `queue` from position `start` on, taken cyclically. -/
def cyclicFrom (queue : List PrivateID) (start k : Nat) : List PrivateID :=
  (List.range k).filterMap fun i => queue[(start + i) % queue.length]?

/-- The placement `saveFile` computes in the state `p`. -/
def Public.placement (p : Public) : List PrivateID :=
  cyclicFrom p.privateQueue p.currentIdx.toNat 5

/-- The cursor `saveFile` leaves behind in the state `p` with the random source
`seed`. -/
def Public.nextIdx (p : Public) (seed : Nat) : Int :=
  (p.currentIdx + 1 + (seed : Int) % ((p.privateQueue.length / 2 : Nat) : Int))
    % (p.privateQueue.length : Int)

/-- The state an admitted write of `fileName` leaves behind. -/
def Public.reserve (p : Public) (fileName : String) (seed : Nat) : Public :=
  { p with currentIdx := p.nextIdx seed, fileDb := (fileName, p.placement) :: p.fileDb }

/-- What holds of every state of the coordinator. -/
structure Public.Inv (p : Public) : Prop where
  cursor_nonneg : 0 ≤ p.currentIdx
  cursor_lt : p.privateQueue ≠ [] → p.currentIdx < (p.privateQueue.length : Int)
  cursor_zero : p.privateQueue = [] → p.currentIdx = 0
  queue_nodup : p.privateQueue.Nodup
  set_iff : ∀ id, (p.privateSet.lookup id).isSome ↔ id ∈ p.privateQueue
  fileDb_name : p.fileDb.lookup "" = none
  fileDb_privs : ∀ f privs, p.fileDb.lookup f = some privs →
    privs.length = 5 ∧ privs.Nodup ∧ ∀ id ∈ privs, id ∈ p.privateQueue

/-- A registration request that is well formed: the body decodes to `pi` and the
remote address resolves to `addr`. -/
def wellFormed (pi : common.PrivateInfo) (addr : TCPAddr) : RegisterRequest :=
  { Body := Except.ok pi, RemoteAddr := Except.ok addr }

/-- The coordinator after the well-formed registration requests of a list, taken
one after another from the state `p` on. -/
def Public.registerAll (p : Public) : List (common.PrivateInfo × TCPAddr) → Public
  | [] => p
  | (pi, addr) :: rest => Public.registerAll (p.register (wellFormed pi addr)).1 rest

/-- The ids of a list in the order in which each comes first. -/
def firstOccurrences : List PrivateID → List PrivateID
  | [] => []
  | id :: ids => id :: (firstOccurrences ids).filter (fun x => x ≠ id)

/-- Whether a chunk call returned an error. -/
def ChunkCall.failed : ChunkCall → Bool
  | ChunkCall.save _ _ _ _ err => err.isSome
  | ChunkCall.load _ _ _ res => res.isNone

/-- The chunk index of a chunk call. -/
def ChunkCall.chunkInd : ChunkCall → Nat
  | ChunkCall.save _ _ _ i _ => i
  | ChunkCall.load _ _ i _ => i

/-- The node a chunk call goes to. -/
def ChunkCall.id : ChunkCall → PrivateID
  | ChunkCall.save id _ _ _ _ => id
  | ChunkCall.load id _ _ _ => id

/-- The bytes a chunk call carries: those sent by `saveChunk`, those returned by
`loadChunk` (none on an error). -/
def ChunkCall.bytes : ChunkCall → Bytes
  | ChunkCall.save _ chunk _ _ _ => chunk
  | ChunkCall.load _ _ _ res => res.getD []

/-- The five chunks `saveFile` cuts a payload of at least five bytes into. -/
def split5 (buf : Bytes) : List Bytes :=
  let chunkSize := buf.length / 5
  [buf.take chunkSize,
   (buf.drop chunkSize).take chunkSize,
   ((buf.drop chunkSize).drop chunkSize).take chunkSize,
   (((buf.drop chunkSize).drop chunkSize).drop chunkSize).take chunkSize,
   (((buf.drop chunkSize).drop chunkSize).drop chunkSize).drop chunkSize]

/-- What `saveChunk` returns once its request is built: the error (`none` for
`nil`) and the world after the request. -/
def Public.sentChunk {ω : Type} (T : Transport ω) (p : Public) (id : PrivateID)
    (chunk : Bytes) (fileName : String) (chunkInd : Nat) (net : ω) : Option String × ω :=
  match T.Put net (p.addrOf id) (chunkName fileName chunkInd) chunk with
  | (Except.error err, net) => (some err, net)
  | (Except.ok resp, net) =>
    if resp.StatusCode ≠ http.StatusNoContent then (some common.ErrExpectHttpNoContent, net)
    else (none, net)

/-- The library builds the request for each of the five chunks of `fileName`,
whatever the address: `http.NewRequest` returns no error in `saveChunk`. -/
def Transport.Accepts {ω : Type} (T : Transport ω) (fileName : String) : Prop :=
  ∀ addr, ∀ name ∈ chunkNames fileName, T.NewRequest addr name = true

/-- The calls `saveChunk(id, chunk, fileName, i)` for the listed nodes and chunks,
one after another from chunk index `i` on, each with its request built: the calls
with their results, and the world after them. -/
def Public.sendAll {ω : Type} (T : Transport ω) (p : Public) (fileName : String) :
    List (PrivateID × Bytes) → Nat → ω → List ChunkCall × ω
  | [], _, net => ([], net)
  | (id, chunk) :: rest, i, net =>
    let r := p.sentChunk T id chunk fileName i net
    let rs := Public.sendAll T p fileName rest (i + 1) r.2
    (ChunkCall.save id chunk fileName i r.1 :: rs.1, rs.2)

/-- In the cluster `net` the node at `addr` has a file `name` with the bytes
`content`. -/
def Cluster.Holds (net : Cluster) (addr : TCPAddr) (name : String) (content : Bytes) : Prop :=
  ∃ dir, net addr = some dir ∧ dir name = some content

/-- In the cluster `net` a node listens at `addr`. -/
def Cluster.Live (net : Cluster) (addr : TCPAddr) : Prop :=
  ∃ dir, net addr = some dir

/-- The requests `saveChunk` sends for the listed nodes and chunks, from chunk
index `i` on. -/
def Public.putRequests (p : Public) (fileName : String) :
    List (PrivateID × Bytes) → Nat → List WireRequest
  | [], _ => []
  | (id, chunk) :: rest, i =>
    ⟨"PUT", p.addrOf id, chunkName fileName i, chunk⟩ ::
      Public.putRequests p fileName rest (i + 1)

/-! ## Example states -/

/-- The network in which no node answers. -/
def Transport.down : Transport Unit where
  NewRequest _ fileName := urlAccepted fileName
  Put _ _ _ _ := (Except.error "connection refused", ())
  Get _ _ _ := (Except.error "connection refused", ())

/-- Five nodes on one host, each with an empty directory. -/
def fiveDirs : Cluster := fun addr =>
  if addr.IP = "127.0.0.1" ∧ 8100 ≤ addr.Port ∧ addr.Port ≤ 8104 then some (fun _ => none)
  else none

/-- The coordinator after the registration of five nodes. -/
def fiveNodes : Public :=
  NewInstance.registerAll
    [(⟨"0000", 8100⟩, ⟨"127.0.0.1", 40000⟩), (⟨"0001", 8101⟩, ⟨"127.0.0.1", 40001⟩),
     (⟨"0002", 8102⟩, ⟨"127.0.0.1", 40002⟩), (⟨"0003", 8103⟩, ⟨"127.0.0.1", 40003⟩),
     (⟨"0004", 8104⟩, ⟨"127.0.0.1", 40004⟩)]

/-- The coordinator after the registration of four nodes. -/
def fourNodes : Public :=
  NewInstance.registerAll
    [(⟨"0000", 8100⟩, ⟨"127.0.0.1", 40000⟩), (⟨"0001", 8101⟩, ⟨"127.0.0.1", 40001⟩),
     (⟨"0002", 8102⟩, ⟨"127.0.0.1", 40002⟩), (⟨"0003", 8103⟩, ⟨"127.0.0.1", 40003⟩)]

/-- The coordinator of `fiveNodes` after an admitted write of the name "test". -/
def testPlaced : Public := fiveNodes.reserve "test" 0

/-- A request `PUT /?filename=<fileName>` with the body `payload`. -/
def Request.put (fileName : String) (payload : Bytes) : Request :=
  { Method := "PUT", Path := "/", filename := fileName, Body := Except.ok payload,
    registration := { Body := Except.error "invalid character",
                      RemoteAddr := Except.ok ⟨"127.0.0.1", 50000⟩ } }

/-- A request `GET /?filename=<fileName>`. -/
def Request.get (fileName : String) : Request :=
  { Method := "GET", Path := "/", filename := fileName, Body := Except.ok [],
    registration := { Body := Except.error "EOF",
                      RemoteAddr := Except.ok ⟨"127.0.0.1", 50000⟩ } }

/-! ## Slices and the placement loop -/

theorem index_natCast {α : Type} (xs : List α) (i : Nat) (h : i < xs.length) :
    index xs (i : Int) = Except.ok xs[i] := by
  have h0 : ¬ ((i : Int) < 0) := by omega
  simp [index, h0, List.getElem?_eq_getElem h]

theorem cyclicFrom_succ (q : List PrivateID) (c k : Nat) (hq : q ≠ []) :
    ∃ x, q[(c + k) % q.length]? = some x ∧ cyclicFrom q c (k + 1) = cyclicFrom q c k ++ [x] := by
  have hpos : 0 < q.length := List.length_pos.mpr hq
  have hlt : (c + k) % q.length < q.length := Nat.mod_lt _ hpos
  refine ⟨q[(c + k) % q.length], List.getElem?_eq_getElem hlt, ?_⟩
  simp [cyclicFrom, List.range_succ, List.filterMap_append, List.getElem?_eq_getElem hlt]

theorem cyclicFrom_length (q : List PrivateID) (c k : Nat) (hq : q ≠ []) :
    (cyclicFrom q c k).length = k := by
  induction k with
  | zero => simp [cyclicFrom]
  | succ k ih =>
    obtain ⟨x, -, hx⟩ := cyclicFrom_succ q c k hq
    simp [hx, ih]

theorem cyclicFrom_getElem? (q : List PrivateID) (c k i : Nat) (hq : q ≠ []) (hi : i < k) :
    (cyclicFrom q c k)[i]? = q[(c + i) % q.length]? := by
  induction k with
  | zero => omega
  | succ k ih =>
    obtain ⟨x, hx1, hx⟩ := cyclicFrom_succ q c k hq
    rw [hx]
    by_cases hik : i < k
    · rw [List.getElem?_append_left (by rw [cyclicFrom_length q c k hq]; exact hik)]
      exact ih hik
    · have hik2 : i = k := by omega
      subst hik2
      rw [List.getElem?_append_right (by rw [cyclicFrom_length q c i hq])]
      simp [cyclicFrom_length q c i hq, hx1]

theorem cyclicFrom_mem (q : List PrivateID) (c k : Nat) (id : PrivateID)
    (h : id ∈ cyclicFrom q c k) : id ∈ q := by
  simp only [cyclicFrom, List.mem_filterMap] at h
  obtain ⟨i, -, hi⟩ := h
  exact List.getElem?_mem hi

theorem cyclicFrom_nodup (q : List PrivateID) (c k : Nat) (hq : q.Nodup) (hk : k ≤ q.length) :
    (cyclicFrom q c k).Nodup := by
  by_cases hne : q = []
  · subst hne
    have : k = 0 := by simpa using hk
    subst this
    simp [cyclicFrom]
  rw [List.nodup_iff_getElem?_ne_getElem?]
  intro i j hij hj
  rw [cyclicFrom_length q c k hne] at hj
  rw [cyclicFrom_getElem? q c k i hne (by omega), cyclicFrom_getElem? q c k j hne hj]
  have hpos : 0 < q.length := List.length_pos.mpr hne
  intro heq
  have hmod := List.getElem?_inj (Nat.mod_lt _ hpos) hq heq
  have h1 : (c + i) ≡ (c + j) [MOD q.length] := hmod
  have h2 : i ≡ j [MOD q.length] := Nat.ModEq.add_left_cancel' c h1
  have h3 : i % q.length = j % q.length := h2
  rw [Nat.mod_eq_of_lt (by omega), Nat.mod_eq_of_lt (by omega)] at h3
  omega

theorem placeLoop_eq (q : List PrivateID) (hq : q ≠ []) :
    ∀ (k c : Nat) (acc : List PrivateID), c < q.length →
      placeLoop q k (c : Int) acc = Except.ok (acc ++ cyclicFrom q c k) := by
  have hpos : 0 < q.length := List.length_pos.mpr hq
  intro k
  induction k with
  | zero => intro c acc _; simp [placeLoop, cyclicFrom]
  | succ k ih =>
    intro c acc hc
    have hnext : (if (c : Int) + 1 ≥ (q.length : Int) then (0 : Int) else (c : Int) + 1)
        = (((c + 1) % q.length : Nat) : Int) := by
      by_cases h : c + 1 = q.length
      · have : (c : Int) + 1 ≥ (q.length : Int) := by omega
        simp [this, h]
      · have h1 : ¬ ((c : Int) + 1 ≥ (q.length : Int)) := by omega
        rw [if_neg h1, Nat.mod_eq_of_lt (by omega)]
        push_cast
        rfl
    have hrec := ih ((c + 1) % q.length) (acc ++ [q[c]]) (Nat.mod_lt _ hpos)
    simp only [placeLoop, index_natCast q c hc, hnext, hrec]
    congr 1
    have hcons : cyclicFrom q c (k + 1) = q[c] :: cyclicFrom q ((c + 1) % q.length) k := by
      apply List.ext_getElem?
      intro i
      by_cases hi : i < k + 1
      · rw [cyclicFrom_getElem? q c (k + 1) i hq hi]
        cases i with
        | zero => simp [Nat.mod_eq_of_lt hc, List.getElem?_eq_getElem hc]
        | succ i =>
          rw [List.getElem?_cons_succ, cyclicFrom_getElem? q _ k i hq (by omega)]
          congr 1
          rw [Nat.mod_add_mod]
          congr 1
          omega
      · have h1 : (cyclicFrom q c (k + 1)).length ≤ i := by
          rw [cyclicFrom_length q c (k + 1) hq]; omega
        have h2 : (q[c] :: cyclicFrom q ((c + 1) % q.length) k).length ≤ i := by
          rw [List.length_cons, cyclicFrom_length q _ k hq]; omega
        rw [List.getElem?_eq_none h1, List.getElem?_eq_none h2]
    rw [hcons]
    simp

/-! ## The branches of `saveFile` -/

theorem Intn_half (n seed : Nat) (hn : 2 ≤ n) :
    rand.Intn ((n : Int) >>> (1 : Nat)) seed
      = Except.ok ((seed : Int) % ((n / 2 : Nat) : Int)) := by
  have h1 : ((n : Int) >>> (1 : Nat)) = ((n / 2 : Nat) : Int) := by
    rw [Int.shiftRight_eq_div_pow]
    norm_num
  have h2 : ¬ (((n / 2 : Nat) : Int) ≤ 0) := by omega
  rw [h1]
  simp only [rand.Intn, if_neg h2]

theorem tmod_nextIdx (p : Public) (seed : Nat) (h0 : 0 ≤ p.currentIdx) :
    Int.tmod (p.currentIdx + (1 + (seed : Int) % ((p.privateQueue.length / 2 : Nat) : Int)))
      (p.privateQueue.length : Int) = p.nextIdx seed := by
  have hr : 0 ≤ (seed : Int) % ((p.privateQueue.length / 2 : Nat) : Int) := by
    exact_mod_cast Nat.zero_le (seed % (p.privateQueue.length / 2))
  rw [Int.tmod_eq_emod (by omega) (by omega), Public.nextIdx, add_assoc]

theorem placement_eq (p : Public) (hq : 5 ≤ p.privateQueue.length) :
    ∃ a b c d e, p.placement = [a, b, c, d, e] := by
  have hne : p.privateQueue ≠ [] := by
    intro h; rw [h] at hq; simp at hq
  have hlen := cyclicFrom_length p.privateQueue p.currentIdx.toNat 5 hne
  unfold Public.placement
  match cyclicFrom p.privateQueue p.currentIdx.toNat 5, hlen with
  | [a, b, c, d, e], _ => exact ⟨a, b, c, d, e, rfl⟩

theorem placeLoop_placement (p : Public) (hq : 5 ≤ p.privateQueue.length)
    (h0 : 0 ≤ p.currentIdx) (hlt : p.currentIdx < (p.privateQueue.length : Int)) :
    placeLoop p.privateQueue 5 p.currentIdx [] = Except.ok p.placement := by
  have hne : p.privateQueue ≠ [] := by
    intro h; rw [h] at hq; simp at hq
  have hc : p.currentIdx = ((p.currentIdx.toNat : Nat) : Int) := by omega
  have := placeLoop_eq p.privateQueue hne 5 p.currentIdx.toNat [] (by omega)
  rw [← hc] at this
  simpa [Public.placement] using this

theorem saveFile_emptyName {ω : Type} (T : Transport ω) (p : Public)
    (body : Except String Bytes) (seed : Nat) (net : ω) :
    p.saveFile T "" body seed net =
      Except.ok ⟨p, [http.Call.Write (bytesOf common.ErrFileNameEmpty),
        http.Call.WriteHeader http.StatusBadRequest], [], net⟩ := by
  simp [Public.saveFile, checkFileName]

theorem saveFile_duplicate {ω : Type} (T : Transport ω) (p : Public) (fileName : String)
    (body : Except String Bytes) (seed : Nat) (net : ω) (hf : fileName ≠ "")
    (hdb : (p.fileDb.lookup fileName).isSome) :
    p.saveFile T fileName body seed net =
      Except.ok ⟨p, [http.Call.Write (bytesOf "file already exists and cannot be rewritten"),
        http.Call.WriteHeader http.StatusBadRequest], [], net⟩ := by
  simp [Public.saveFile, checkFileName, hf, hdb]

theorem saveFile_noQuorum {ω : Type} (T : Transport ω) (p : Public) (fileName : String)
    (body : Except String Bytes) (seed : Nat) (net : ω) (hf : fileName ≠ "")
    (hdb : p.fileDb.lookup fileName = none) (hq : p.privateQueue.length < 5) :
    p.saveFile T fileName body seed net =
      Except.ok ⟨p, [http.Call.Write (bytesOf "no quorum, service not ready"),
        http.Call.WriteHeader http.StatusServiceUnavailable], [], net⟩ := by
  simp [Public.saveFile, checkFileName, hf, hdb, hq]

theorem saveFile_readError {ω : Type} (T : Transport ω) (p : Public) (fileName : String)
    (err : String) (seed : Nat) (net : ω) (hf : fileName ≠ "")
    (hdb : p.fileDb.lookup fileName = none) (hq : 5 ≤ p.privateQueue.length)
    (h0 : 0 ≤ p.currentIdx) (hlt : p.currentIdx < (p.privateQueue.length : Int)) :
    p.saveFile T fileName (Except.error err) seed net =
      Except.ok ⟨p.reserve fileName seed,
        [http.Call.Write (bytesOf "cant read file from request"),
         http.Call.WriteHeader http.StatusInternalServerError], [], net⟩ := by
  have hq2 : ¬ (p.privateQueue.length < 5) := by omega
  simp only [Public.saveFile, checkFileName, hf, hdb, hq2, if_false, Option.isSome_none,
    Bool.false_eq_true, Intn_half _ seed (by omega : 2 ≤ p.privateQueue.length),
    tmod_nextIdx p seed h0, placeLoop_placement p hq h0 hlt, Public.reserve]

theorem chunkName_eq (fileName : String) (i : Nat) (hi : i < 5) :
    (chunkNames fileName)[i]? = some (chunkName fileName i) := by
  have h0 : "." ++ pad2 0 = ".00" := by decide
  have h1 : "." ++ pad2 1 = ".01" := by decide
  have h2 : "." ++ pad2 2 = ".02" := by decide
  have h3 : "." ++ pad2 3 = ".03" := by decide
  have h4 : "." ++ pad2 4 = ".04" := by decide
  interval_cases i <;> simp [chunkNames, chunkName, String.append_assoc, h0, h1, h2, h3, h4]

theorem chunkName_mem (fileName : String) (i : Nat) (hi : i < 5) :
    chunkName fileName i ∈ chunkNames fileName :=
  List.getElem?_mem (chunkName_eq fileName i hi)

theorem saveChunk_accepted {ω : Type} (T : Transport ω) (p : Public) (id : PrivateID)
    (chunk : Bytes) (fileName : String) (i : Nat) (net : ω)
    (h : T.NewRequest (p.addrOf id) (chunkName fileName i) = true) :
    p.saveChunk T id chunk fileName i net = some (p.sentChunk T id chunk fileName i net) := by
  simp only [Public.saveChunk, Public.sentChunk, h, if_true]
  split
  · rfl
  · split <;> rfl

theorem saveChunk_refused {ω : Type} (T : Transport ω) (p : Public) (id : PrivateID)
    (chunk : Bytes) (fileName : String) (i : Nat) (net : ω)
    (h : T.NewRequest (p.addrOf id) (chunkName fileName i) = false) :
    p.saveChunk T id chunk fileName i net = none := by
  simp [Public.saveChunk, h]

theorem Accepts_chunk {ω : Type} (T : Transport ω) (p : Public) (fileName : String)
    (h : T.Accepts fileName) (id : PrivateID) (chunk : Bytes) (i : Nat) (net : ω) (hi : i < 5) :
    p.saveChunk T id chunk fileName i net = some (p.sentChunk T id chunk fileName i net) :=
  saveChunk_accepted T p id chunk fileName i net (h _ _ (chunkName_mem fileName i hi))

/-- The loop that sends the chunks 0 to 3 returns or ends the process; it does not
panic. -/
theorem sendLoop_cases {ω : Type} (T : Transport ω) (p : Public) (privs : List PrivateID)
    (fileName : String) (chunkSize : Nat) :
    ∀ (k i : Nat) (buf : Bytes) (errs : List (Option String)) (calls : List ChunkCall)
      (net : ω), i + k ≤ privs.length →
      (∃ r, p.sendLoop T privs fileName chunkSize k i buf errs calls net = Except.ok r) ∨
      (∃ calls1 net1, p.sendLoop T privs fileName chunkSize k i buf errs calls net =
        Except.error (Abort.fatal ⟨p, [], calls1, net1⟩)) := by
  intro k
  induction k with
  | zero => intro i buf errs calls net _; exact Or.inl ⟨_, rfl⟩
  | succ k ih =>
    intro i buf errs calls net hi
    simp only [Public.sendLoop, index_natCast privs i (by omega)]
    cases hsc : p.saveChunk T privs[i] (List.take chunkSize buf) fileName i net with
    | none => exact Or.inr ⟨_, _, rfl⟩
    | some r =>
      obtain ⟨err, net1⟩ := r
      exact ih (i + 1) _ _ _ _ (by omega)

/-- An admitted write returns or ends the process through `logger.Fatal`; either
way the coordinator is left with the cursor advanced and the placement stored. -/
theorem saveFile_reserved {ω : Type} (T : Transport ω) (p : Public) (fileName : String)
    (body : Except String Bytes) (seed : Nat) (net : ω) (hf : fileName ≠ "")
    (hdb : p.fileDb.lookup fileName = none) (hq : 5 ≤ p.privateQueue.length)
    (h0 : 0 ≤ p.currentIdx) (hlt : p.currentIdx < (p.privateQueue.length : Int)) :
    ∃ out, (p.saveFile T fileName body seed net = Except.ok out ∨
        p.saveFile T fileName body seed net = Except.error (Abort.fatal out)) ∧
      out.p = p.reserve fileName seed := by
  cases body with
  | error err =>
    exact ⟨_, Or.inl (saveFile_readError T p fileName err seed net hf hdb hq h0 hlt), rfl⟩
  | ok buf =>
    obtain ⟨a, b, c, d, e, hp⟩ := placement_eq p hq
    have hq2 : ¬ (p.privateQueue.length < 5) := by omega
    have hidx0 : index [a, b, c, d, e] 0 = Except.ok a := by simp [index]
    have hidx4 : index [a, b, c, d, e] 4 = Except.ok e := by simp [index]
    simp only [Public.saveFile, checkFileName, hf, hdb, hq2, if_false, Option.isSome_none,
      Bool.false_eq_true, Intn_half _ seed (by omega : 2 ≤ p.privateQueue.length),
      tmod_nextIdx p seed h0, placeLoop_placement p hq h0 hlt, hp]
    by_cases hbuf : buf.length < 5
    · simp only [hbuf, if_true, hidx0]
      split
      · exact ⟨_, Or.inr rfl, by simp [Public.reserve, hp]⟩
      · exact ⟨_, Or.inl rfl, by simp [Public.reserve, hp]⟩
    · simp only [hbuf, if_false]
      rcases sendLoop_cases T
          { p with currentIdx := p.nextIdx seed, fileDb := (fileName, [a, b, c, d, e]) :: p.fileDb }
          [a, b, c, d, e] fileName (buf.length / 5) 4 0 buf [] [] net (by simp)
        with ⟨r, hr⟩ | ⟨calls1, net1, hr⟩
      · obtain ⟨errs, calls, buf1, net1⟩ := r
        simp only [hr, hidx4]
        split
        · exact ⟨_, Or.inr rfl, by simp [Public.reserve, hp]⟩
        · split
          · exact ⟨_, Or.inl rfl, by simp [Public.reserve, hp]⟩
          · exact ⟨_, Or.inl rfl, by simp [Public.reserve, hp]⟩
      · simp only [hr]
        exact ⟨_, Or.inr rfl, by simp [Public.reserve, hp]⟩

theorem saveFile_small {ω : Type} (T : Transport ω) (p : Public) (fileName : String)
    (buf : Bytes) (seed : Nat) (net : ω) (hf : fileName ≠ "")
    (hdb : p.fileDb.lookup fileName = none) (hq : 5 ≤ p.privateQueue.length)
    (h0 : 0 ≤ p.currentIdx) (hlt : p.currentIdx < (p.privateQueue.length : Int))
    (hbuf : buf.length < 5) (hreq : T.Accepts fileName) :
    ∃ a b c d e, p.placement = [a, b, c, d, e] ∧
      p.saveFile T fileName (Except.ok buf) seed net =
        Except.ok ⟨p.reserve fileName seed, [],
          ((p.reserve fileName seed).sendAll T fileName [(a, buf)] 0 net).1,
          ((p.reserve fileName seed).sendAll T fileName [(a, buf)] 0 net).2⟩ := by
  obtain ⟨a, b, c, d, e, hp⟩ := placement_eq p hq
  refine ⟨a, b, c, d, e, hp, ?_⟩
  have hq2 : ¬ (p.privateQueue.length < 5) := by omega
  have hidx0 : index [a, b, c, d, e] 0 = Except.ok a := by simp [index]
  have hs0 := fun (id : PrivateID) (chunk : Bytes) (net : ω) =>
    Accepts_chunk T (p.reserve fileName seed) fileName hreq id chunk 0 net (by omega)
  simp only [Public.reserve, hp] at hs0
  simp only [Public.saveFile, checkFileName, hf, hdb, hq2, if_false, Option.isSome_none,
    Bool.false_eq_true, Intn_half _ seed (by omega : 2 ≤ p.privateQueue.length),
    tmod_nextIdx p seed h0, placeLoop_placement p hq h0 hlt, Public.reserve, hbuf, if_true,
    Public.sendAll, hp, hidx0, hs0]

theorem saveFile_large {ω : Type} (T : Transport ω) (p : Public) (fileName : String)
    (buf : Bytes) (seed : Nat) (net : ω) (hf : fileName ≠ "")
    (hdb : p.fileDb.lookup fileName = none) (hq : 5 ≤ p.privateQueue.length)
    (h0 : 0 ≤ p.currentIdx) (hlt : p.currentIdx < (p.privateQueue.length : Int))
    (hbuf : 5 ≤ buf.length) (hreq : T.Accepts fileName) :
    p.saveFile T fileName (Except.ok buf) seed net =
      Except.ok ⟨p.reserve fileName seed,
        if (((p.reserve fileName seed).sendAll T fileName
              (p.placement.zip (split5 buf)) 0 net).1.any ChunkCall.failed)
        then [http.Call.Write (bytesOf "cant save file"),
              http.Call.WriteHeader http.StatusServiceUnavailable]
        else [http.Call.WriteHeader http.StatusNoContent],
        ((p.reserve fileName seed).sendAll T fileName (p.placement.zip (split5 buf)) 0 net).1,
        ((p.reserve fileName seed).sendAll T fileName (p.placement.zip (split5 buf)) 0 net).2⟩ := by
  obtain ⟨a, b, c, d, e, hp⟩ := placement_eq p hq
  have hq2 : ¬ (p.privateQueue.length < 5) := by omega
  have hbuf2 : ¬ (buf.length < 5) := by omega
  have hidx0 : index [a, b, c, d, e] ((0 : Nat) : Int) = Except.ok a := by simp [index]
  have hidx1 : index [a, b, c, d, e] ((0 + 1 : Nat) : Int) = Except.ok b := by simp [index]
  have hidx2 : index [a, b, c, d, e] ((0 + 1 + 1 : Nat) : Int) = Except.ok c := by simp [index]
  have hidx3 : index [a, b, c, d, e] ((0 + 1 + 1 + 1 : Nat) : Int) = Except.ok d := by
    simp [index]
  have hidx4 : index [a, b, c, d, e] 4 = Except.ok e := by simp [index]
  have hs := fun (id : PrivateID) (chunk : Bytes) (i : Nat) (net : ω) (hi : i < 5) =>
    Accepts_chunk T (p.reserve fileName seed) fileName hreq id chunk i net hi
  simp only [Public.reserve, hp] at hs
  simp only [Public.saveFile, checkFileName, hf, hdb, hq2, if_false, Option.isSome_none,
    Bool.false_eq_true, Intn_half _ seed (by omega : 2 ≤ p.privateQueue.length),
    tmod_nextIdx p seed h0, placeLoop_placement p hq h0 hlt, Public.reserve, hbuf2,
    Public.sendAll, Public.sendLoop, hp, split5, List.zip_cons_cons, List.zip_nil_right,
    hidx0, hidx1, hidx2, hidx3, hidx4,
    hs _ _ 0 _ (by omega), hs _ _ (0 + 1) _ (by omega), hs _ _ (0 + 1 + 1) _ (by omega),
    hs _ _ (0 + 1 + 1 + 1) _ (by omega), hs _ _ 4 _ (by omega)]
  simp only [ChunkCall.failed, List.any_cons, List.any_nil, Bool.or_false]
  simp
  split_ifs <;> rfl

/-! ## What holds in every state -/

theorem lookup_cons_ite {β : Type} (k k' : String) (v : β) (l : List (String × β)) :
    List.lookup k ((k', v) :: l) = if k = k' then some v else List.lookup k l := by
  by_cases h : k = k'
  · subst h
    simp [List.lookup_cons]
  · have hb : (k == k') = false := by simpa using h
    simp [List.lookup_cons, hb, h]

theorem nextIdx_range (p : Public) (seed : Nat) (hne : p.privateQueue ≠ []) :
    0 ≤ p.nextIdx seed ∧ p.nextIdx seed < (p.privateQueue.length : Int) := by
  have hpos : 0 < p.privateQueue.length := List.length_pos.mpr hne
  have hpos2 : (0 : Int) < (p.privateQueue.length : Int) := by omega
  exact ⟨Int.emod_nonneg _ (by omega), Int.emod_lt_of_pos _ hpos2⟩

theorem Inv_NewInstance : NewInstance.Inv where
  cursor_nonneg := by simp [NewInstance]
  cursor_lt := by simp [NewInstance]
  cursor_zero := by simp [NewInstance]
  queue_nodup := by simp [NewInstance]
  set_iff := by simp [NewInstance]
  fileDb_name := by simp [NewInstance]
  fileDb_privs := by simp [NewInstance]

theorem register_eq (p : Public) (r : RegisterRequest) :
    (p.register r).1 = p ∨
    ∃ pi addr, r.Body = Except.ok pi ∧ r.RemoteAddr = Except.ok addr ∧
      p.privateSet.lookup pi.ID = none ∧
      (p.register r).1 =
        { p with
          privateQueue := p.privateQueue ++ [pi.ID]
          privateSet := (pi.ID, { ID := pi.ID, Addr := { addr with Port := pi.Port } })
            :: p.privateSet } := by
  unfold Public.register
  cases hb : r.Body with
  | error e => left; rfl
  | ok pi =>
    cases ha : r.RemoteAddr with
    | error e => left; rfl
    | ok addr =>
      cases hl : p.privateSet.lookup pi.ID with
      | some prv => left; simp [hl]
      | none => right; exact ⟨pi, addr, rfl, rfl, hl, by simp [hl]⟩

theorem Inv_register (p : Public) (r : RegisterRequest) (h : p.Inv) : (p.register r).1.Inv := by
  rcases register_eq p r with heq | ⟨pi, addr, -, -, hl, heq⟩
  · rw [heq]; exact h
  · rw [heq]
    have hnot : pi.ID ∉ p.privateQueue := by
      intro hmem
      have := (h.set_iff pi.ID).mpr hmem
      simp [hl] at this
    constructor
    · exact h.cursor_nonneg
    · intro _
      by_cases hq : p.privateQueue = []
      · have := h.cursor_zero hq
        simp [this]
      · have := h.cursor_lt hq
        simp only [List.length_append, List.length_singleton]
        push_cast
        omega
    · intro hq
      simp at hq
    · show (p.privateQueue ++ [pi.ID]).Nodup
      rw [List.nodup_append]
      refine ⟨h.queue_nodup, List.nodup_singleton _, ?_⟩
      intro x hx hx2
      have : x = pi.ID := by simpa using hx2
      exact hnot (this ▸ hx)
    · intro id
      show (List.lookup id ((pi.ID, _) :: p.privateSet)).isSome ↔ id ∈ p.privateQueue ++ [pi.ID]
      rw [lookup_cons_ite, List.mem_append, List.mem_singleton]
      by_cases hid : id = pi.ID
      · simp [hid]
      · simp [hid, h.set_iff id]
    · exact h.fileDb_name
    · intro f privs hf
      obtain ⟨h1, h2, h3⟩ := h.fileDb_privs f privs hf
      refine ⟨h1, h2, ?_⟩
      intro id hid
      exact List.mem_append_left _ (h3 id hid)

theorem Inv_reserve (p : Public) (fileName : String) (seed : Nat) (h : p.Inv)
    (hf : fileName ≠ "") (hq : 5 ≤ p.privateQueue.length) : (p.reserve fileName seed).Inv := by
  have hne : p.privateQueue ≠ [] := by
    intro h; rw [h] at hq; simp at hq
  constructor
  · exact (nextIdx_range p seed hne).1
  · intro _
    exact (nextIdx_range p seed hne).2
  · intro hq2
    exact absurd hq2 hne
  · exact h.queue_nodup
  · exact h.set_iff
  · show List.lookup "" ((fileName, p.placement) :: p.fileDb) = none
    rw [lookup_cons_ite, if_neg (fun h => hf h.symm)]
    exact h.fileDb_name
  · intro f privs hl
    have hl2 : List.lookup f ((fileName, p.placement) :: p.fileDb) = some privs := hl
    rw [lookup_cons_ite] at hl2
    by_cases hff : f = fileName
    · rw [if_pos hff] at hl2
      have hp : p.placement = privs := by simpa using hl2
      subst hp
      exact ⟨cyclicFrom_length _ _ _ hne, cyclicFrom_nodup _ _ _ h.queue_nodup hq,
        fun id hid => cyclicFrom_mem _ _ _ id hid⟩
    · rw [if_neg hff] at hl2
      exact h.fileDb_privs f privs hl2

/-- In a state of the coordinator `saveFile` returns or ends the process through
`logger.Fatal`, and it does not panic; when it returns it either leaves the state
as it was or has admitted the write, and when it ends the process it had admitted
the write. -/
theorem saveFile_cases {ω : Type} (T : Transport ω) (p : Public) (fileName : String)
    (body : Except String Bytes) (seed : Nat) (net : ω) (h : p.Inv) :
    ∃ out,
      (p.saveFile T fileName body seed net = Except.ok out ∧ out.p = p) ∨
      ((p.saveFile T fileName body seed net = Except.ok out ∨
          p.saveFile T fileName body seed net = Except.error (Abort.fatal out)) ∧
        fileName ≠ "" ∧ p.fileDb.lookup fileName = none ∧ 5 ≤ p.privateQueue.length ∧
        out.p = p.reserve fileName seed) := by
  by_cases hf : fileName = ""
  · subst hf
    exact ⟨_, Or.inl ⟨saveFile_emptyName T p body seed net, rfl⟩⟩
  cases hdb : p.fileDb.lookup fileName with
  | some privs =>
    exact ⟨_, Or.inl ⟨saveFile_duplicate T p fileName body seed net hf (by simp [hdb]), rfl⟩⟩
  | none =>
    by_cases hq : p.privateQueue.length < 5
    · exact ⟨_, Or.inl ⟨saveFile_noQuorum T p fileName body seed net hf hdb hq, rfl⟩⟩
    have hq5 : 5 ≤ p.privateQueue.length := by omega
    have hne : p.privateQueue ≠ [] := by
      intro h; rw [h] at hq5; simp at hq5
    obtain ⟨out, hres, hout⟩ := saveFile_reserved T p fileName body seed net hf hdb hq5
      h.cursor_nonneg (h.cursor_lt hne)
    exact ⟨out, Or.inr ⟨hres, hf, rfl, hq5, hout⟩⟩

theorem saveFile_ok_state {ω : Type} (T : Transport ω) (p : Public) (fileName : String)
    (body : Except String Bytes) (seed : Nat) (net : ω) (h : p.Inv) (out : Outcome ω)
    (heq : p.saveFile T fileName body seed net = Except.ok out) :
    out.p = p ∨
      (fileName ≠ "" ∧ p.fileDb.lookup fileName = none ∧ 5 ≤ p.privateQueue.length ∧
        out.p = p.reserve fileName seed) := by
  obtain ⟨out2, hcase⟩ := saveFile_cases T p fileName body seed net h
  rcases hcase with ⟨h1, h2⟩ | ⟨h1 | h1, h2⟩
  · rw [heq] at h1
    cases h1
    exact Or.inl h2
  · rw [heq] at h1
    cases h1
    exact Or.inr h2
  · rw [heq] at h1
    cases h1

theorem loadFile_state {ω : Type} (T : Transport ω) (p : Public) (fileName : String) (net : ω) :
    (p.loadFile T fileName net).p = p := by
  unfold Public.loadFile
  split
  · rfl
  · split <;> rfl

theorem Steps_Inv {p q : Public} (h : p.Inv) (hs : Steps p q) : q.Inv := by
  induction hs with
  | refl => exact h
  | register r _ ih => exact Inv_register _ r ih
  | saveFile T fileName body seed net _ heq ih =>
    rcases saveFile_ok_state T _ fileName body seed net ih _ heq with h1 | ⟨hf, -, hq, h1⟩
    · rw [h1]; exact ih
    · rw [h1]; exact Inv_reserve _ fileName seed ih hf hq
  | loadFile T fileName net _ ih =>
    rw [loadFile_state]; exact ih

theorem Reachable_Inv {p : Public} (h : Reachable p) : p.Inv :=
  Steps_Inv Inv_NewInstance h

theorem Steps_trans {p q r : Public} (h1 : Steps p q) (h2 : Steps q r) : Steps p r := by
  induction h2 with
  | refl => exact h1
  | register r _ ih => exact Steps.register r ih
  | saveFile T fileName body seed net _ heq ih => exact Steps.saveFile T fileName body seed net ih heq
  | loadFile T fileName net _ ih => exact Steps.loadFile T fileName net ih

/-- An entry of `fileDb` stays as it is whatever the coordinator does next. -/
theorem Steps_fileDb {p q : Public} (h : p.Inv) (hs : Steps p q) (fileName : String)
    (privs : List PrivateID) (hl : p.fileDb.lookup fileName = some privs) :
    q.fileDb.lookup fileName = some privs := by
  induction hs with
  | refl => exact hl
  | register r hs ih =>
    rcases register_eq _ r with heq | ⟨pi, addr, -, -, -, heq⟩
    · rw [heq]; exact ih
    · rw [heq]; exact ih
  | saveFile T f body seed net hs heq ih =>
    rcases saveFile_ok_state T _ f body seed net (Steps_Inv h hs) _ heq
      with h1 | ⟨-, hnone, -, h1⟩
    · rw [h1]; exact ih
    · rw [h1]
      show List.lookup fileName ((f, _) :: _) = some privs
      rw [lookup_cons_ite]
      have hne : fileName ≠ f := by
        intro hh
        rw [hh, hnone] at ih
        cases ih
      rw [if_neg hne]
      exact ih
  | loadFile T f net _ ih =>
    rw [loadFile_state]; exact ih

/-! ## Registration -/

theorem register_wellFormed (p : Public) (pi : common.PrivateInfo) (addr : TCPAddr) :
    p.register (wellFormed pi addr) =
      if (p.privateSet.lookup pi.ID).isSome then (p, [http.Call.WriteHeader http.StatusNoContent])
      else
        ({ p with
            privateQueue := p.privateQueue ++ [pi.ID]
            privateSet := (pi.ID, { ID := pi.ID, Addr := { addr with Port := pi.Port } })
              :: p.privateSet },
         [http.Call.WriteHeader http.StatusNoContent]) := by
  simp only [Public.register, wellFormed]
  split <;> simp_all

theorem registerAll_Inv (rs : List (common.PrivateInfo × TCPAddr)) :
    ∀ p : Public, p.Inv → (p.registerAll rs).Inv := by
  induction rs with
  | nil => intro p h; exact h
  | cons r rest ih =>
    intro p h
    obtain ⟨pi, addr⟩ := r
    exact ih _ (Inv_register p _ h)

theorem registerAll_queue (rs : List (common.PrivateInfo × TCPAddr)) :
    ∀ p : Public, p.Inv →
      (p.registerAll rs).privateQueue =
        p.privateQueue ++
          (firstOccurrences (rs.map fun r => r.1.ID)).filter (fun x => x ∉ p.privateQueue) := by
  induction rs with
  | nil => intro p _; simp [Public.registerAll, firstOccurrences]
  | cons r rest ih =>
    intro p h
    obtain ⟨pi, addr⟩ := r
    have hstep := ih _ (Inv_register p (wellFormed pi addr) h)
    simp only [Public.registerAll, List.map_cons, firstOccurrences]
    rw [hstep, register_wellFormed]
    by_cases hmem : pi.ID ∈ p.privateQueue
    · have hsome : (p.privateSet.lookup pi.ID).isSome := (h.set_iff pi.ID).mpr hmem
      rw [if_pos hsome]
      simp only [List.filter_cons, hmem, not_true_eq_false, decide_False, Bool.false_eq_true,
        if_false, List.filter_filter]
      congr 1
      apply List.filter_congr
      intro x _
      by_cases hx : x ∈ p.privateQueue
      · simp [hx]
      · have : x ≠ pi.ID := fun hh => hx (hh ▸ hmem)
        simp [hx, this]
    · have hnone : ¬ (p.privateSet.lookup pi.ID).isSome := fun hh => hmem ((h.set_iff pi.ID).mp hh)
      rw [if_neg hnone]
      simp only [List.filter_cons, hmem, not_false_eq_true, decide_True, if_true,
        List.filter_filter, List.append_assoc, List.singleton_append]
      congr 2
      apply List.filter_congr
      intro x _
      by_cases hx : x ∈ p.privateQueue
      · simp [hx]
      · by_cases hx2 : x = pi.ID
        · simp [hx2]
        · simp [hx, hx2]

/-- C9. After any finite sequence of well-formed registration requests taken one
after another from the empty registry, the queue is the list of the ids in the
order in which each was first registered and has no duplicates, the keys of
`privateSet` are the ids of the queue, and a registration of an id that is already
there leaves the coordinator (queue, map and stored addresses) as it is and answers
with the one call `WriteHeader(204)`. -/
theorem register_idempotent (rs : List (common.PrivateInfo × TCPAddr)) :
    (NewInstance.registerAll rs).privateQueue = firstOccurrences (rs.map fun r => r.1.ID) ∧
    (NewInstance.registerAll rs).privateQueue.Nodup ∧
    (∀ id, ((NewInstance.registerAll rs).privateSet.lookup id).isSome ↔
      id ∈ (NewInstance.registerAll rs).privateQueue) ∧
    (∀ (pi : common.PrivateInfo) (addr : TCPAddr),
      pi.ID ∈ (NewInstance.registerAll rs).privateQueue →
      (NewInstance.registerAll rs).register (wellFormed pi addr) =
        (NewInstance.registerAll rs, [http.Call.WriteHeader http.StatusNoContent]) ∧
      http.sentStatus ((NewInstance.registerAll rs).register (wellFormed pi addr)).2 = 204) := by
  have hinv := registerAll_Inv rs NewInstance Inv_NewInstance
  refine ⟨?_, hinv.queue_nodup, hinv.set_iff, ?_⟩
  · rw [registerAll_queue rs NewInstance Inv_NewInstance]
    simp [NewInstance]
  · intro pi addr hmem
    have hsome := (hinv.set_iff pi.ID).mpr hmem
    rw [register_wellFormed, if_pos hsome]
    exact ⟨rfl, rfl⟩

theorem firstOccurrences_mem (ids : List PrivateID) (x : PrivateID) :
    x ∈ firstOccurrences ids ↔ x ∈ ids := by
  induction ids with
  | nil => simp [firstOccurrences]
  | cons id ids ih =>
    simp only [firstOccurrences, List.mem_cons, List.mem_filter, ih]
    by_cases h : x = id
    · simp [h]
    · simp [h]

theorem firstOccurrences_nodup (ids : List PrivateID) : (firstOccurrences ids).Nodup := by
  induction ids with
  | nil => simp [firstOccurrences]
  | cons id ids ih =>
    simp only [firstOccurrences, List.nodup_cons, List.mem_filter]
    exact ⟨by simp, ih.filter _⟩

/-- The ids "0000", "0001", "0000", "0002", "0001" registered in this order leave
the queue "0000", "0001", "0002", and the address kept for "0000" is the one of
its first registration. -/
theorem registerAll_example :
    (NewInstance.registerAll
      [(⟨"0000", 8100⟩, ⟨"127.0.0.1", 40000⟩), (⟨"0001", 8101⟩, ⟨"127.0.0.1", 40001⟩),
       (⟨"0000", 9999⟩, ⟨"127.0.0.9", 40002⟩), (⟨"0002", 8102⟩, ⟨"127.0.0.1", 40003⟩),
       (⟨"0001", 8101⟩, ⟨"127.0.0.1", 40004⟩)]).privateQueue = ["0000", "0001", "0002"] ∧
    (NewInstance.registerAll
      [(⟨"0000", 8100⟩, ⟨"127.0.0.1", 40000⟩), (⟨"0001", 8101⟩, ⟨"127.0.0.1", 40001⟩),
       (⟨"0000", 9999⟩, ⟨"127.0.0.9", 40002⟩), (⟨"0002", 8102⟩, ⟨"127.0.0.1", 40003⟩),
       (⟨"0001", 8101⟩, ⟨"127.0.0.1", 40004⟩)]).addrOf "0000" = ⟨"127.0.0.1", 8100⟩ ∧
    firstOccurrences ["0000", "0001", "0000", "0002", "0001"] = ["0000", "0001", "0002"] :=
  ⟨by decide, by decide, by decide⟩

theorem registerAll_Steps (rs : List (common.PrivateInfo × TCPAddr)) :
    ∀ p q : Public, Steps p q → Steps p (q.registerAll rs) := by
  induction rs with
  | nil => intro p q h; exact h
  | cons r rest ih =>
    intro p q h
    obtain ⟨pi, addr⟩ := r
    exact ih p _ (Steps.register (wellFormed pi addr) h)

theorem fiveNodes_reachable : Reachable fiveNodes :=
  registerAll_Steps _ NewInstance NewInstance Steps.refl

theorem fourNodes_reachable : Reachable fourNodes :=
  registerAll_Steps _ NewInstance NewInstance Steps.refl

/-! ## The chunk calls of a write -/

theorem sendAll_id {ω : Type} (T : Transport ω) (p : Public) (fileName : String) :
    ∀ (items : List (PrivateID × Bytes)) (i : Nat) (net : ω),
      (p.sendAll T fileName items i net).1.map ChunkCall.id = items.map Prod.fst := by
  intro items
  induction items with
  | nil => intro i net; rfl
  | cons x rest ih =>
    intro i net
    obtain ⟨id, chunk⟩ := x
    simp [Public.sendAll, ChunkCall.id, ih]

theorem sendAll_bytes {ω : Type} (T : Transport ω) (p : Public) (fileName : String) :
    ∀ (items : List (PrivateID × Bytes)) (i : Nat) (net : ω),
      (p.sendAll T fileName items i net).1.map ChunkCall.bytes = items.map Prod.snd := by
  intro items
  induction items with
  | nil => intro i net; rfl
  | cons x rest ih =>
    intro i net
    obtain ⟨id, chunk⟩ := x
    simp [Public.sendAll, ChunkCall.bytes, ih]

theorem sendAll_chunkInd {ω : Type} (T : Transport ω) (p : Public) (fileName : String) :
    ∀ (items : List (PrivateID × Bytes)) (i : Nat) (net : ω),
      (p.sendAll T fileName items i net).1.map ChunkCall.chunkInd
        = List.range' i items.length := by
  intro items
  induction items with
  | nil => intro i net; rfl
  | cons x rest ih =>
    intro i net
    obtain ⟨id, chunk⟩ := x
    simp [Public.sendAll, ChunkCall.chunkInd, ih, List.range'_succ]

theorem sendAll_save {ω : Type} (T : Transport ω) (p : Public) (fileName : String) :
    ∀ (items : List (PrivateID × Bytes)) (i : Nat) (net : ω),
      ∀ call ∈ (p.sendAll T fileName items i net).1,
        ∃ id chunk k err, call = ChunkCall.save id chunk fileName k err := by
  intro items
  induction items with
  | nil => intro i net call h; simp [Public.sendAll] at h
  | cons x rest ih =>
    intro i net call h
    obtain ⟨id, chunk⟩ := x
    simp only [Public.sendAll, List.mem_cons] at h
    rcases h with h | h
    · exact ⟨_, _, _, _, h⟩
    · exact ih _ _ call h

theorem chunkNames_eq (fileName : String) :
    chunkNames fileName =
      [chunkName fileName 0, chunkName fileName 1, chunkName fileName 2, chunkName fileName 3,
       chunkName fileName 4] := by
  apply List.ext_getElem?
  intro i
  by_cases hi : i < 5
  · rw [chunkName_eq fileName i hi]
    interval_cases i <;> rfl
  · have h1 : (chunkNames fileName).length ≤ i := by simp [chunkNames]; omega
    rw [List.getElem?_eq_none h1, List.getElem?_eq_none (by simp; omega)]

theorem sentChunk_recording {ω : Type} (T : Transport ω) (p : Public) (id : PrivateID)
    (chunk : Bytes) (fileName : String) (i : Nat) (net : ω) (log : List WireRequest) :
    p.sentChunk T.recording id chunk fileName i (net, log) =
      ((p.sentChunk T id chunk fileName i net).1,
       ((p.sentChunk T id chunk fileName i net).2,
        log ++ [⟨"PUT", p.addrOf id, chunkName fileName i, chunk⟩])) := by
  cases h : T.Put net (p.addrOf id) (chunkName fileName i) chunk with
  | mk resp net1 =>
    cases resp with
    | error err => simp [Public.sentChunk, Transport.recording, h]
    | ok resp =>
      by_cases hs : resp.StatusCode = http.StatusNoContent <;>
        simp [Public.sentChunk, Transport.recording, h, hs]

/-- The handler sends over the recording transport what it sends over the
transport itself, and the record grows by the requests of the chunks, in
order. -/
theorem sendAll_recording {ω : Type} (T : Transport ω) (p : Public) (fileName : String) :
    ∀ (items : List (PrivateID × Bytes)) (i : Nat) (net : ω) (log : List WireRequest),
      p.sendAll T.recording fileName items i (net, log) =
        ((p.sendAll T fileName items i net).1,
         ((p.sendAll T fileName items i net).2, log ++ p.putRequests fileName items i)) := by
  intro items
  induction items with
  | nil => intro i net log; simp [Public.sendAll, Public.putRequests]
  | cons x rest ih =>
    intro i net log
    obtain ⟨id, chunk⟩ := x
    simp only [Public.sendAll, sentChunk_recording, ih, Public.putRequests, List.append_assoc,
      List.singleton_append]

theorem putRequests_method (p : Public) (fileName : String) :
    ∀ (items : List (PrivateID × Bytes)) (i : Nat),
      (p.putRequests fileName items i).map WireRequest.method
        = List.replicate items.length "PUT" := by
  intro items
  induction items with
  | nil => intro i; rfl
  | cons x rest ih => intro i; obtain ⟨id, chunk⟩ := x; simp [Public.putRequests, ih, List.replicate_succ]

theorem putRequests_addr (p : Public) (fileName : String) :
    ∀ (items : List (PrivateID × Bytes)) (i : Nat),
      (p.putRequests fileName items i).map WireRequest.addr
        = (items.map Prod.fst).map p.addrOf := by
  intro items
  induction items with
  | nil => intro i; rfl
  | cons x rest ih => intro i; obtain ⟨id, chunk⟩ := x; simp [Public.putRequests, ih]

theorem putRequests_body (p : Public) (fileName : String) :
    ∀ (items : List (PrivateID × Bytes)) (i : Nat),
      (p.putRequests fileName items i).map WireRequest.body = items.map Prod.snd := by
  intro items
  induction items with
  | nil => intro i; rfl
  | cons x rest ih => intro i; obtain ⟨id, chunk⟩ := x; simp [Public.putRequests, ih]

theorem putRequests_name (p : Public) (fileName : String) :
    ∀ (items : List (PrivateID × Bytes)) (i : Nat),
      (p.putRequests fileName items i).map WireRequest.name
        = (List.range' i items.length).map (chunkName fileName) := by
  intro items
  induction items with
  | nil => intro i; rfl
  | cons x rest ih =>
    intro i; obtain ⟨id, chunk⟩ := x; simp [Public.putRequests, ih, List.range'_succ]

theorem split5_flatten (buf : Bytes) : (split5 buf).flatten = buf := by
  simp [split5, List.flatten]

theorem split5_lengths (buf : Bytes) :
    (split5 buf).map List.length =
      [buf.length / 5, buf.length / 5, buf.length / 5, buf.length / 5,
       buf.length - 4 * (buf.length / 5)] := by
  simp only [split5, List.map_cons, List.map_nil, List.length_take, List.length_drop]
  have h : 5 * (buf.length / 5) ≤ buf.length := Nat.mul_div_le _ _
  congr 1
  · omega
  congr 1
  · omega
  congr 1
  · omega
  congr 1
  · omega
  congr 1
  omega

/-! ## The claims on the write path -/

/-- Split exactness where the requests can be built. An admitted write of a
payload of `n ≥ 5` bytes for whose five chunk names `http.NewRequest` builds a
request, whatever the nodes answer, makes exactly five
calls of `saveChunk`, all for the file name of the request; the call for chunk
index `i` goes to `placement[i]`, for `i = 0, …, 4` in this order; the chunks 0 to
3 have `n / 5` bytes each, chunk 4 has `n - 4 * (n / 5)`, and the chunks put one
after another in index order are the payload. The requests that reach the
network are five: each a `PUT`, the `i`-th to the address of `placement[i]` under
the name `fileName.0i` with chunk `i` as its body. -/
theorem split_exactness {ω : Type} (T : Transport ω) (p : Public) (fileName : String)
    (payload : Bytes) (seed : Nat) (net : ω) (hp : Reachable p) (hf : fileName ≠ "")
    (hdb : p.fileDb.lookup fileName = none) (hq : 5 ≤ p.privateQueue.length)
    (hn : 5 ≤ payload.length) (hreq : T.Accepts fileName) :
    ∃ out privs,
      p.saveFile T.recording fileName (Except.ok payload) seed (net, []) = Except.ok out ∧
      out.p.fileDb.lookup fileName = some privs ∧
      out.chunks.length = 5 ∧
      (∀ call ∈ out.chunks, ∃ id chunk i err, call = ChunkCall.save id chunk fileName i err) ∧
      out.chunks.map ChunkCall.id = privs ∧
      out.chunks.map ChunkCall.chunkInd = [0, 1, 2, 3, 4] ∧
      out.chunks.map (fun call => call.bytes.length) =
        [payload.length / 5, payload.length / 5, payload.length / 5, payload.length / 5,
         payload.length - 4 * (payload.length / 5)] ∧
      (out.chunks.map ChunkCall.bytes).flatten = payload ∧
      out.net.2.map WireRequest.method = ["PUT", "PUT", "PUT", "PUT", "PUT"] ∧
      out.net.2.map WireRequest.addr = privs.map p.addrOf ∧
      out.net.2.map WireRequest.name =
        [fileName ++ ".00", fileName ++ ".01", fileName ++ ".02", fileName ++ ".03",
         fileName ++ ".04"] ∧
      out.net.2.map WireRequest.body = out.chunks.map ChunkCall.bytes := by
  have hinv := Reachable_Inv hp
  have hne : p.privateQueue ≠ [] := by
    intro h; rw [h] at hq; simp at hq
  have heq := saveFile_large T.recording p fileName payload seed (net, []) hf hdb hq
    hinv.cursor_nonneg (hinv.cursor_lt hne) hn hreq
  rw [sendAll_recording] at heq
  have hplen : p.placement.length = 5 := cyclicFrom_length _ _ _ hne
  have hslen : (split5 payload).length = 5 := rfl
  have hfst : (p.placement.zip (split5 payload)).map Prod.fst = p.placement := by
    rw [← List.unzip_fst, List.unzip_zip (by rw [hplen, hslen])]
  have hsnd : (p.placement.zip (split5 payload)).map Prod.snd = split5 payload := by
    rw [← List.unzip_snd, List.unzip_zip (by rw [hplen, hslen])]
  have hzlen : (p.placement.zip (split5 payload)).length = 5 := by
    rw [List.length_zip, hplen, hslen]; rfl
  refine ⟨_, p.placement, heq, ?_, ?_, ?_, ?_, ?_, ?_, ?_, ?_, ?_, ?_, ?_⟩
  · show List.lookup fileName ((fileName, p.placement) :: p.fileDb) = some p.placement
    rw [lookup_cons_ite, if_pos rfl]
  · have := congrArg List.length (sendAll_chunkInd T (p.reserve fileName seed) fileName
      (p.placement.zip (split5 payload)) 0 net)
    simpa [hzlen] using this
  · exact sendAll_save T _ fileName _ 0 net
  · show List.map ChunkCall.id (Public.sendAll T _ fileName _ 0 net).1 = p.placement
    rw [sendAll_id, hfst]
  · show List.map ChunkCall.chunkInd (Public.sendAll T _ fileName _ 0 net).1 = [0, 1, 2, 3, 4]
    rw [sendAll_chunkInd, hzlen]
    rfl
  · show List.map (fun call => call.bytes.length) (Public.sendAll T _ fileName _ 0 net).1 = _
    have : (fun call : ChunkCall => call.bytes.length) = List.length ∘ ChunkCall.bytes := rfl
    rw [this, ← List.map_map, sendAll_bytes, hsnd, split5_lengths]
  · show (List.map ChunkCall.bytes (Public.sendAll T _ fileName _ 0 net).1).flatten = payload
    rw [sendAll_bytes, hsnd, split5_flatten]
  · show List.map WireRequest.method ([] ++ Public.putRequests _ fileName _ 0) = _
    rw [List.nil_append, putRequests_method, hzlen]
    rfl
  · show List.map WireRequest.addr ([] ++ Public.putRequests _ fileName _ 0) = _
    rw [List.nil_append, putRequests_addr, hfst]
    rfl
  · show List.map WireRequest.name ([] ++ Public.putRequests _ fileName _ 0) = _
    rw [List.nil_append, putRequests_name, hzlen]
    exact (chunkNames_eq fileName).symm
  · show List.map WireRequest.body ([] ++ Public.putRequests _ fileName _ 0)
      = List.map ChunkCall.bytes (Public.sendAll T _ fileName _ 0 net).1
    rw [List.nil_append, putRequests_body, sendAll_bytes]

/-- C4, as the code has it. With a queue of `n ≥ 5` nodes, a cursor `oldCursor` of
`[0, n)` and a random draw `r` of `[0, n / 2)`, the placement step of `saveFile`
sets the cursor to `(oldCursor + 1 + r) mod n` and stores as the placement of the
file the five ids `queue[(oldCursor + i) mod n]`, `i = 0, …, 4`: the nodes from
the cursor as it was before the step, taken cyclically. This is the state the
handler leaves, whether it returns or ends the process in `saveChunk`; it returns
when `http.NewRequest` builds the requests for the chunk names. -/
theorem placement_start {ω : Type} (T : Transport ω) (p : Public) (fileName : String)
    (body : Except String Bytes) (r : Nat) (net : ω) (hf : fileName ≠ "")
    (hdb : p.fileDb.lookup fileName = none) (hq : 5 ≤ p.privateQueue.length)
    (h0 : 0 ≤ p.currentIdx) (hlt : p.currentIdx < (p.privateQueue.length : Int))
    (hr : r < p.privateQueue.length / 2) :
    rand.Intn ((p.privateQueue.length : Int) >>> (1 : Nat)) r = Except.ok (r : Int) ∧
    ∃ out privs,
      (p.saveFile T fileName body r net = Except.ok out ∨
        p.saveFile T fileName body r net = Except.error (Abort.fatal out)) ∧
      (T.Accepts fileName → p.saveFile T fileName body r net = Except.ok out) ∧
      out.p.currentIdx = (p.currentIdx + 1 + r) % (p.privateQueue.length : Int) ∧
      out.p.fileDb.lookup fileName = some privs ∧
      privs.length = 5 ∧
      ∀ i : Nat, i < 5 →
        privs[i]? =
          p.privateQueue[((p.currentIdx + i) % (p.privateQueue.length : Int)).toNat]? := by
  have hne : p.privateQueue ≠ [] := by
    intro h; rw [h] at hq; simp at hq
  have hdraw : (r : Int) % ((p.privateQueue.length / 2 : Nat) : Int) = (r : Int) := by
    apply Int.emod_eq_of_lt <;> omega
  obtain ⟨out, hres, hout⟩ := saveFile_reserved T p fileName body r net hf hdb hq h0 hlt
  have hacc : T.Accepts fileName → p.saveFile T fileName body r net = Except.ok out := by
    intro hreq
    rcases hres with h1 | h1
    · exact h1
    · exfalso
      cases body with
      | error err =>
        rw [saveFile_readError T p fileName err r net hf hdb hq h0 hlt] at h1
        cases h1
      | ok buf =>
        by_cases hbuf : buf.length < 5
        · obtain ⟨a, b, c, d, e, -, heq⟩ :=
            saveFile_small T p fileName buf r net hf hdb hq h0 hlt hbuf hreq
          rw [heq] at h1
          cases h1
        · rw [saveFile_large T p fileName buf r net hf hdb hq h0 hlt (by omega) hreq] at h1
          cases h1
  refine ⟨?_, out, p.placement, hres, hacc, ?_, ?_, cyclicFrom_length _ _ _ hne, ?_⟩
  · rw [Intn_half _ r (by omega), hdraw]
  · rw [hout]
    show p.nextIdx r = _
    rw [Public.nextIdx, hdraw]
  · rw [hout]
    show List.lookup fileName ((fileName, p.placement) :: p.fileDb) = some p.placement
    rw [lookup_cons_ite, if_pos rfl]
  · intro i hi
    show (cyclicFrom p.privateQueue p.currentIdx.toNat 5)[i]? = _
    rw [cyclicFrom_getElem? _ _ _ _ hne hi]
    congr 1
    have hc : p.currentIdx = ((p.currentIdx.toNat : Nat) : Int) := by omega
    have : (p.currentIdx + (i : Int)) % (p.privateQueue.length : Int)
        = (((p.currentIdx.toNat + i) % p.privateQueue.length : Nat) : Int) := by
      rw [hc]
      push_cast
      simp
    rw [this, Int.toNat_ofNat]

/-- C5. In a state of the coordinator in which `fileDb` has an entry for the file
name, a write of that name, whatever the payload, is answered on the duplicate
branch, makes no chunk call and leaves the coordinator (placement map, cursor and
registry) as it is; and once a write has left an entry for a name, whether its
body could be read and whether its transfers succeeded or not, the entry stays
what it is and every later write of the name is answered on the duplicate
branch. -/
theorem no_overwrite (p : Public) (fileName : String) (hp : Reachable p) :
    ((p.fileDb.lookup fileName).isSome →
      ∀ {ω : Type} (T : Transport ω) (body : Except String Bytes) (seed : Nat) (net : ω),
        p.saveFile T fileName body seed net =
          Except.ok ⟨p,
            [http.Call.Write (bytesOf "file already exists and cannot be rewritten"),
             http.Call.WriteHeader http.StatusBadRequest], [], net⟩) ∧
    (∀ {ω : Type} (T : Transport ω) (body : Except String Bytes) (seed : Nat) (net : ω)
        (out : Outcome ω),
      p.saveFile T fileName body seed net = Except.ok out →
      (out.p.fileDb.lookup fileName).isSome →
      ∀ q, Steps out.p q →
        q.fileDb.lookup fileName = out.p.fileDb.lookup fileName ∧
        ∀ {ω' : Type} (T' : Transport ω') (body' : Except String Bytes) (seed' : Nat)
          (net' : ω'),
          q.saveFile T' fileName body' seed' net' =
            Except.ok ⟨q,
              [http.Call.Write (bytesOf "file already exists and cannot be rewritten"),
               http.Call.WriteHeader http.StatusBadRequest], [], net'⟩) := by
  have hinv := Reachable_Inv hp
  have hdup : ∀ q : Public, q.Inv → (q.fileDb.lookup fileName).isSome →
      ∀ {ω : Type} (T : Transport ω) (body : Except String Bytes) (seed : Nat) (net : ω),
        q.saveFile T fileName body seed net =
          Except.ok ⟨q,
            [http.Call.Write (bytesOf "file already exists and cannot be rewritten"),
             http.Call.WriteHeader http.StatusBadRequest], [], net⟩ := by
    intro q hq hsome ω T body seed net
    have hf : fileName ≠ "" := by
      intro h
      rw [h, hq.fileDb_name] at hsome
      simp at hsome
    exact saveFile_duplicate T q fileName body seed net hf hsome
  refine ⟨fun hsome => hdup p hinv hsome, ?_⟩
  intro ω T body seed net out heq hsome q hsteps
  have hreach : Reachable out.p := Steps.saveFile T fileName body seed net hp heq
  have hinv2 := Reachable_Inv hreach
  obtain ⟨privs, hprivs⟩ := Option.isSome_iff_exists.mp hsome
  have hkeep := Steps_fileDb hinv2 hsteps fileName privs hprivs
  refine ⟨by rw [hkeep, hprivs], ?_⟩
  intro ω' T' body' seed' net'
  exact hdup q (Steps_Inv hinv2 hsteps) (by rw [hkeep]; rfl) T' body' seed' net'

/-- Quorum gating where the requests can be built. For a file name that is not
empty and not yet placed:
with fewer than five nodes in the registry `saveFile` answers on the no-quorum
branch, makes no chunk call, leaves the world outside as it is and leaves the
coordinator, its placement map and cursor among the rest, as it is, so that no
entry is made; with exactly five nodes, and a name for whose chunk names
`http.NewRequest` builds a request, the write is admitted: an entry for the name
is made and the first request that reaches the network is the `PUT` of chunk 0,
under the name `fileName.00`, to the address of the first node of the
placement. -/
theorem quorum_gating {ω : Type} (T : Transport ω) (p : Public) (fileName : String)
    (payload : Bytes) (seed : Nat) (net : ω) (hp : Reachable p) (hf : fileName ≠ "")
    (hdb : p.fileDb.lookup fileName = none) :
    (p.privateQueue.length < 5 →
      p.saveFile T fileName (Except.ok payload) seed net =
        Except.ok ⟨p, [http.Call.Write (bytesOf "no quorum, service not ready"),
          http.Call.WriteHeader http.StatusServiceUnavailable], [], net⟩) ∧
    (p.privateQueue.length = 5 → T.Accepts fileName →
      ∃ out privs a,
        p.saveFile T.recording fileName (Except.ok payload) seed (net, []) = Except.ok out ∧
        out.p.fileDb.lookup fileName = some privs ∧
        out.p.privateQueue = p.privateQueue ∧
        privs.head? = some a ∧
        out.net.2.head? =
          some ⟨"PUT", p.addrOf a, fileName ++ ".00",
            if payload.length < 5 then payload else payload.take (payload.length / 5)⟩ ∧
        out.chunks ≠ [] ∧
        ∀ call ∈ out.chunks, ∃ id chunk i err,
          call = ChunkCall.save id chunk fileName i err) := by
  refine ⟨fun hq => saveFile_noQuorum T p fileName _ seed net hf hdb hq, ?_⟩
  intro hq5 hreq
  have hq : 5 ≤ p.privateQueue.length := by omega
  have hinv := Reachable_Inv hp
  have hne : p.privateQueue ≠ [] := by
    intro h; rw [h] at hq; simp at hq
  have hl : List.lookup fileName ((fileName, p.placement) :: p.fileDb) = some p.placement := by
    rw [lookup_cons_ite, if_pos rfl]
  have hname : chunkName fileName 0 = fileName ++ ".00" := by
    have := chunkName_eq fileName 0 (by omega)
    simpa [chunkNames] using this.symm
  by_cases hbuf : payload.length < 5
  · obtain ⟨a, b, c, d, e, hpl, heq⟩ := saveFile_small T.recording p fileName payload seed
      (net, []) hf hdb hq hinv.cursor_nonneg (hinv.cursor_lt hne) hbuf hreq
    rw [sendAll_recording] at heq
    refine ⟨_, p.placement, a, heq, hl, rfl, by rw [hpl]; rfl, ?_, ?_,
      sendAll_save T _ fileName _ 0 net⟩
    · show ([] ++ Public.putRequests _ fileName [(a, payload)] 0).head? = _
      simp [Public.putRequests, hbuf, hname]
      rfl
    · simp [Public.sendAll]
  · have heq := saveFile_large T.recording p fileName payload seed (net, []) hf hdb hq
      hinv.cursor_nonneg (hinv.cursor_lt hne) (by omega) hreq
    rw [sendAll_recording] at heq
    obtain ⟨a, b, c, d, e, hpl⟩ := placement_eq p hq
    refine ⟨_, p.placement, a, heq, hl, rfl, by rw [hpl]; rfl, ?_, ?_,
      sendAll_save T _ fileName _ 0 net⟩
    · show ([] ++ Public.putRequests _ fileName (p.placement.zip (split5 payload)) 0).head? = _
      rw [hpl]
      simp [Public.putRequests, split5, hbuf, hname]
      rfl
    · show (Public.sendAll T _ fileName (p.placement.zip (split5 payload)) 0 net).1 ≠ []
      rw [hpl]
      simp [split5, Public.sendAll]

/-- C10. In every state the coordinator gets to from the one `NewInstance`
returns, the cursor is at least 0 and, when the queue is not empty, below its
length. Hence in a write that passes the quorum check `rand.Intn` is called with a
positive argument and returns, the loop that fills `privs` reads the queue only
inside its bounds, the handler does not panic, and the placement it stores for
the file, in the state it leaves on returning or on ending the process in
`saveChunk`, has exactly five ids, no two the same, each of them registered (in
the queue and a key of `privateSet`). -/
theorem placement_well_defined (p : Public) (hp : Reachable p) :
    (0 ≤ p.currentIdx ∧
      (p.privateQueue ≠ [] → p.currentIdx < (p.privateQueue.length : Int))) ∧
    ∀ {ω : Type} (T : Transport ω) (fileName : String) (body : Except String Bytes)
      (seed : Nat) (net : ω),
      fileName ≠ "" → p.fileDb.lookup fileName = none → 5 ≤ p.privateQueue.length →
      0 < ((p.privateQueue.length : Int) >>> (1 : Nat)) ∧
      (∃ r, rand.Intn ((p.privateQueue.length : Int) >>> (1 : Nat)) seed = Except.ok r) ∧
      ∃ privs, placeLoop p.privateQueue 5 p.currentIdx [] = Except.ok privs ∧
        privs.length = 5 ∧ privs.Nodup ∧
        (∀ id ∈ privs, id ∈ p.privateQueue ∧ (p.privateSet.lookup id).isSome) ∧
        (∀ e, p.saveFile T fileName body seed net ≠ Except.error (Abort.panic e)) ∧
        ∃ out, (p.saveFile T fileName body seed net = Except.ok out ∨
            p.saveFile T fileName body seed net = Except.error (Abort.fatal out)) ∧
          out.p.fileDb.lookup fileName = some privs := by
  have hinv := Reachable_Inv hp
  refine ⟨⟨hinv.cursor_nonneg, hinv.cursor_lt⟩, ?_⟩
  intro ω T fileName body seed net hf hdb hq
  have hne : p.privateQueue ≠ [] := by
    intro h; rw [h] at hq; simp at hq
  have hshift : ((p.privateQueue.length : Int) >>> (1 : Nat))
      = ((p.privateQueue.length / 2 : Nat) : Int) := by
    rw [Int.shiftRight_eq_div_pow]
    norm_num
  refine ⟨by rw [hshift]; omega, ⟨_, Intn_half _ seed (by omega)⟩, ?_⟩
  obtain ⟨out, hres, hout⟩ := saveFile_reserved T p fileName body seed net hf hdb hq
    hinv.cursor_nonneg (hinv.cursor_lt hne)
  refine ⟨p.placement, placeLoop_placement p hq hinv.cursor_nonneg (hinv.cursor_lt hne),
    cyclicFrom_length _ _ _ hne, cyclicFrom_nodup _ _ _ hinv.queue_nodup hq, ?_, ?_,
    out, hres, ?_⟩
  · intro id hid
    have hmem := cyclicFrom_mem _ _ _ id hid
    exact ⟨hmem, (hinv.set_iff id).mpr hmem⟩
  · intro e he
    rcases hres with h1 | h1 <;> rw [h1] at he <;> cases he
  · rw [hout]
    show List.lookup fileName ((fileName, p.placement) :: p.fileDb) = some p.placement
    rw [lookup_cons_ite, if_pos rfl]

/-! ## The chunk calls of a read -/

theorem loadLoop_spec {ω : Type} (T : Transport ω) (p : Public) (fileName : String) :
    ∀ (privs : List PrivateID) (i : Nat) (buf : Bytes) (net : ω),
      (p.loadLoop T fileName privs i buf net).2.1 =
        buf ++ ((p.loadLoop T fileName privs i buf net).2.2.1.map ChunkCall.bytes).flatten ∧
      (p.loadLoop T fileName privs i buf net).1 =
        (if (p.loadLoop T fileName privs i buf net).2.2.1.any ChunkCall.failed then
          [http.Call.Write (bytesOf "something wrong"),
           http.Call.WriteHeader http.StatusInternalServerError]
         else []) ∧
      (p.loadLoop T fileName privs i buf net).2.2.1.map ChunkCall.chunkInd =
        List.range' i (p.loadLoop T fileName privs i buf net).2.2.1.length ∧
      (p.loadLoop T fileName privs i buf net).2.2.1.map ChunkCall.id =
        privs.take (p.loadLoop T fileName privs i buf net).2.2.1.length ∧
      (∀ call ∈ (p.loadLoop T fileName privs i buf net).2.2.1,
        ∃ id k res, call = ChunkCall.load id fileName k res) ∧
      (p.loadLoop T fileName privs i buf net).2.2.1.dropLast.all
        (fun call => !call.failed) = true ∧
      ((p.loadLoop T fileName privs i buf net).2.2.1.any ChunkCall.failed = false →
        (p.loadLoop T fileName privs i buf net).2.2.1.length = privs.length) := by
  intro privs
  induction privs with
  | nil => intro i buf net; simp [Public.loadLoop]
  | cons id rest ih =>
    intro i buf net
    rcases h : p.loadChunk T id fileName i net with ⟨res, net1⟩
    cases res with
    | error err =>
      simp [Public.loadLoop, h, ChunkCall.bytes, ChunkCall.failed, ChunkCall.chunkInd,
        ChunkCall.id]
    | ok t =>
      obtain ⟨h1, h2, h3, h4, h5, h6, h7⟩ := ih (i + 1) (buf ++ t) net1
      simp only [Public.loadLoop, h]
      refine ⟨?_, ?_, ?_, ?_, ?_, ?_, ?_⟩
      · rw [h1]
        simp [ChunkCall.bytes]
      · rw [h2]
        simp [ChunkCall.failed]
      · simp [ChunkCall.chunkInd, h3, List.range'_succ]
      · simp only [List.map_cons, ChunkCall.id, List.length_cons, List.take_succ_cons, h4]
      · intro call hcall
        simp only [List.mem_cons] at hcall
        rcases hcall with hc | hc
        · exact ⟨_, _, _, hc⟩
        · exact h5 call hc
      · cases hcalls : (p.loadLoop T fileName rest (i + 1) (buf ++ t) net1).2.2.1 with
        | nil => simp
        | cons c cs =>
          rw [hcalls] at h6
          simp only [List.dropLast_cons₂, List.all_cons, ChunkCall.failed, Option.isNone_some,
            Bool.not_false, Bool.true_and]
          exact h6
      · intro hno
        simp only [List.any_cons, ChunkCall.failed, Option.isNone_some, Bool.false_or] at hno
        simp [h7 hno]

/-- What `loadFile` does for a placed file, whatever the nodes answer: it calls
`loadChunk` for the chunk indices from 0 on, in order, each on the node of the
placement at that index, and makes no further call after the first that fails;
the bytes it then writes as the body are the text "something wrong" if a call
failed, followed by the bytes of the calls that succeeded. -/
theorem loadFile_placed {ω : Type} (T : Transport ω) (p : Public) (fileName : String)
    (net : ω) (privs : List PrivateID) (hf : fileName ≠ "")
    (hdb : p.fileDb.lookup fileName = some privs) :
    (p.loadFile T fileName net).chunks.map ChunkCall.chunkInd =
      List.range (p.loadFile T fileName net).chunks.length ∧
    (p.loadFile T fileName net).chunks.map ChunkCall.id =
      privs.take (p.loadFile T fileName net).chunks.length ∧
    (p.loadFile T fileName net).chunks.dropLast.all (fun call => !call.failed) = true ∧
    ((p.loadFile T fileName net).chunks.any ChunkCall.failed = false →
      (p.loadFile T fileName net).chunks.length = privs.length) ∧
    (p.loadFile T fileName net).w =
      (if (p.loadFile T fileName net).chunks.any ChunkCall.failed then
        [http.Call.Write (bytesOf "something wrong"),
         http.Call.WriteHeader http.StatusInternalServerError]
       else []) ++
      [http.Call.Write (((p.loadFile T fileName net).chunks.map ChunkCall.bytes).flatten),
       http.Call.HeaderSet "content-type" "application/octet-stream",
       http.Call.WriteHeader http.StatusOK] := by
  obtain ⟨h1, h2, h3, h4, -, h6, h7⟩ := loadLoop_spec T p fileName privs 0 [] net
  have hunf : p.loadFile T fileName net =
      ⟨p, (p.loadLoop T fileName privs 0 [] net).1 ++
          [http.Call.Write (p.loadLoop T fileName privs 0 [] net).2.1,
           http.Call.HeaderSet "content-type" "application/octet-stream",
           http.Call.WriteHeader http.StatusOK],
        (p.loadLoop T fileName privs 0 [] net).2.2.1,
        (p.loadLoop T fileName privs 0 [] net).2.2.2⟩ := by
    simp [Public.loadFile, checkFileName, hf, hdb]
  rw [hunf]
  refine ⟨?_, h4, h6, h7, ?_⟩
  · show List.map ChunkCall.chunkInd (p.loadLoop T fileName privs 0 [] net).2.2.1 = _
    rw [h3, List.range_eq_range']
  · show (p.loadLoop T fileName privs 0 [] net).1 ++ _ = _
    rw [h2]
    congr 2
    rw [h1]
    rfl

/-! ## Writes and reads over a cluster of nodes -/

theorem chunkName_ne_empty (fileName : String) (i : Nat) : chunkName fileName i ≠ "" := by
  intro h
  have := congrArg String.data h
  simp [chunkName, String.data_append] at this

theorem chunkName_inj (fileName : String) (i j : Nat) (hi : i < 5) (hj : j < 5)
    (h : chunkName fileName i = chunkName fileName j) : i = j := by
  have hd := congrArg String.data h
  simp only [chunkName, String.data_append, List.append_assoc, List.append_cancel_left_eq] at hd
  have hpad : pad2 i = pad2 j := String.ext hd
  have h5 : ∀ a < 5, ∀ b < 5, pad2 a = pad2 b → a = b := by decide
  exact h5 i hi j hj hpad

theorem Cluster.put_live (net : Cluster) (addr : TCPAddr) (name : String) (body : Bytes)
    (dir : Node.Dir) (hdir : net addr = some dir) (hname : name ≠ "") :
    Cluster.transport.Put net addr name body =
      (Except.ok { StatusCode := 204, Body := Except.ok [] },
       Function.update net addr (some (Function.update dir name (some body)))) := by
  simp [Cluster.transport, Cluster.request, hdir, Node.handler, Node.saveFile,
    Node.checkFileName, hname, http.sentStatus, http.sentBody, http.bodyAllowedForStatus,
    http.StatusNoContent]

theorem Cluster.get_holds (net : Cluster) (addr : TCPAddr) (name : String) (content : Bytes)
    (h : net.Holds addr name content) (hname : name ≠ "") (hacc : urlAccepted name = true) :
    Cluster.transport.Get net addr name =
      (Except.ok { StatusCode := 200, Body := Except.ok content }, net) := by
  obtain ⟨dir, hdir, hfile⟩ := h
  have hnet : Function.update net addr (some dir) = net := by
    rw [← hdir]; exact Function.update_eq_self addr net
  simp [Cluster.transport, Cluster.request, hdir, Node.handler, Node.loadFile,
    Node.checkFileName, hname, hfile, http.sentStatus, http.sentBody,
    http.bodyAllowedForStatus, http.StatusOK, http.written, hnet, hacc]

theorem sentChunk_cluster (p : Public) (id : PrivateID) (chunk : Bytes) (fileName : String)
    (i : Nat) (net : Cluster) (hlive : net.Live (p.addrOf id)) :
    ∃ net1 : Cluster, p.sentChunk Cluster.transport id chunk fileName i net = (none, net1) ∧
      net1.Holds (p.addrOf id) (chunkName fileName i) chunk ∧
      (∀ addr, net.Live addr → net1.Live addr) ∧
      (∀ addr name content, net.Holds addr name content → name ≠ chunkName fileName i →
        net1.Holds addr name content) := by
  obtain ⟨dir, hdir⟩ := hlive
  refine ⟨Function.update net (p.addrOf id)
    (some (Function.update dir (chunkName fileName i) (some chunk))), ?_, ?_, ?_, ?_⟩
  · simp only [Public.sentChunk,
      Cluster.put_live net _ _ chunk dir hdir (chunkName_ne_empty fileName i)]
    simp [http.StatusNoContent]
  · exact ⟨_, Function.update_same _ _ _, Function.update_same _ _ _⟩
  · intro addr ⟨d, hd⟩
    by_cases ha : addr = p.addrOf id
    · subst ha; exact ⟨_, Function.update_same _ _ _⟩
    · exact ⟨d, by rw [Function.update_noteq ha]; exact hd⟩
  · intro addr name content ⟨d, hd, hfile⟩ hname
    by_cases ha : addr = p.addrOf id
    · subst ha
      refine ⟨_, Function.update_same _ _ _, ?_⟩
      rw [Function.update_noteq hname]
      rw [hdir] at hd
      cases hd
      exact hfile
    · exact ⟨d, by rw [Function.update_noteq ha]; exact hd, hfile⟩

theorem sendAll_cluster (p : Public) (fileName : String) :
    ∀ (items : List (PrivateID × Bytes)) (i : Nat) (net : Cluster),
      (∀ x ∈ items, net.Live (p.addrOf x.1)) → i + items.length ≤ 5 →
      (∀ call ∈ (p.sendAll Cluster.transport fileName items i net).1,
        call.failed = false) ∧
      (∀ addr, net.Live addr →
        (p.sendAll Cluster.transport fileName items i net).2.Live addr) ∧
      (∀ addr name content, net.Holds addr name content →
        (∀ k, i ≤ k → k < 5 → name ≠ chunkName fileName k) →
        (p.sendAll Cluster.transport fileName items i net).2.Holds addr name content) ∧
      (∀ (k : Nat) (x : PrivateID × Bytes), items[k]? = some x →
        (p.sendAll Cluster.transport fileName items i net).2.Holds
          (p.addrOf x.1) (chunkName fileName (i + k)) x.2) := by
  intro items
  induction items with
  | nil =>
    intro i net _ _
    simp [Public.sendAll]
    intro addr name content h _
    exact h
  | cons x rest ih =>
    intro i net hlive hlen
    obtain ⟨id, chunk⟩ := x
    obtain ⟨net1, hput, hholds, hl1, hkeep⟩ :=
      sentChunk_cluster p id chunk fileName i net (hlive (id, chunk) (List.mem_cons_self _ _))
    have hlen2 : (i + 1) + rest.length ≤ 5 := by
      simp only [List.length_cons] at hlen; omega
    obtain ⟨ih1, ih2, ih3, ih4⟩ := ih (i + 1) net1
      (fun y hy => hl1 _ (hlive y (List.mem_cons_of_mem _ hy))) hlen2
    simp only [Public.sendAll, hput]
    refine ⟨?_, ?_, ?_, ?_⟩
    · intro call hcall
      simp only [List.mem_cons] at hcall
      rcases hcall with hc | hc
      · rw [hc]; rfl
      · exact ih1 call hc
    · intro addr ha
      exact ih2 addr (hl1 addr ha)
    · intro addr name content h hne
      apply ih3 addr name content (hkeep addr name content h (hne i (le_refl _) (by omega)))
      intro k hk hk5
      exact hne k (by omega) hk5
    · intro k y hy
      cases k with
      | zero =>
        simp only [List.getElem?_cons_zero, Option.some.injEq] at hy
        subst hy
        apply ih3 _ _ _ hholds
        intro k hk hk5 heq
        have := chunkName_inj fileName i k (by omega) hk5 heq
        omega
      | succ k =>
        simp only [List.getElem?_cons_succ] at hy
        have := ih4 k y hy
        rw [show i + (k + 1) = i + 1 + k by omega]
        exact this

theorem plainName_accepted (fileName : String) (h : plainName fileName = true) :
    Cluster.transport.Accepts fileName := by
  have hall : ∀ c ∈ fileName.data, ¬ (c.toNat < 32) ∧ c.toNat ≠ 127 := by
    intro c hc
    simp only [plainName, Bool.and_eq_true, List.all_eq_true, Bool.or_eq_true,
      decide_eq_true_eq] at h
    have := h.2 c hc
    omega
  have hdata : (fileName.data.all fun c => !(c.toNat < 32 || c.toNat = 127)) = true := by
    rw [List.all_eq_true]
    intro c hc
    have := hall c hc
    simp [this.1, this.2]
  intro addr name hname
  show urlAccepted name = true
  simp only [chunkNames, List.mem_cons, List.mem_singleton, List.not_mem_nil, or_false]
    at hname
  rcases hname with h1 | h1 | h1 | h1 | h1 <;>
    (subst h1
     simp only [urlAccepted, String.data_append, List.all_append, hdata, Bool.true_and]
     decide)

theorem loadChunk_cluster (p : Public) (id : PrivateID) (fileName : String) (i : Nat)
    (net : Cluster) (content : Bytes)
    (h : net.Holds (p.addrOf id) (chunkName fileName i) content)
    (hacc : Cluster.transport.Accepts fileName) (hi : i < 5) :
    p.loadChunk Cluster.transport id fileName i net = (Except.ok content, net) := by
  simp only [Public.loadChunk,
    Cluster.get_holds net _ _ content h (chunkName_ne_empty fileName i)
      (hacc (p.addrOf id) _ (chunkName_mem fileName i hi))]
  simp [http.StatusOK]

theorem loadLoop_cluster (p : Public) (fileName : String) (net : Cluster)
    (hacc : Cluster.transport.Accepts fileName) :
    ∀ (items : List (PrivateID × Bytes)) (i : Nat) (buf : Bytes),
      i + items.length ≤ 5 →
      (∀ (k : Nat) (x : PrivateID × Bytes), items[k]? = some x →
        net.Holds (p.addrOf x.1) (chunkName fileName (i + k)) x.2) →
      (p.loadLoop Cluster.transport fileName (items.map Prod.fst) i buf net).1 = [] ∧
      (p.loadLoop Cluster.transport fileName (items.map Prod.fst) i buf net).2.1 =
        buf ++ (items.map Prod.snd).flatten := by
  intro items
  induction items with
  | nil => intro i buf _ _; simp [Public.loadLoop]
  | cons x rest ih =>
    intro i buf hlen h
    obtain ⟨id, chunk⟩ := x
    have hlen2 : i + 1 + rest.length ≤ 5 := by
      simp only [List.length_cons] at hlen; omega
    have h0 : net.Holds (p.addrOf id) (chunkName fileName i) chunk := by
      simpa using h 0 (id, chunk) (by simp)
    have hrest := ih (i + 1) (buf ++ chunk) hlen2 (fun k y hy => by
      have := h (k + 1) y (by simpa using hy)
      rw [show i + (k + 1) = i + 1 + k by omega] at this
      exact this)
    simp only [List.map_cons, Public.loadLoop,
      loadChunk_cluster p id fileName i net chunk h0 hacc (by omega)]
    refine ⟨hrest.1, ?_⟩
    rw [hrest.2]
    simp

/-- Round trip for a payload of at least five bytes and a plain file name (at
most 200 ASCII letters, digits, `-`, `_` and `.`). In a state of the coordinator
with at least five nodes, each of them listening and serving a flat directory, a
write of such a name that is not empty and not yet placed is answered with 204,
and a read of the name after it is answered with 200 and a body that is the
payload, byte for byte. -/
theorem round_trip_large (p : Public) (fileName : String) (payload : Bytes) (seed : Nat)
    (net : Cluster) (hp : Reachable p) (hf : fileName ≠ "")
    (hplain : plainName fileName = true)
    (hdb : p.fileDb.lookup fileName = none) (hq : 5 ≤ p.privateQueue.length)
    (hlive : ∀ id ∈ p.privateQueue, net.Live (p.addrOf id)) (hn : 5 ≤ payload.length) :
    ∃ out, p.saveFile Cluster.transport fileName (Except.ok payload) seed net = Except.ok out ∧
      http.sentStatus out.w = 204 ∧
      http.sentStatus (out.p.loadFile Cluster.transport fileName out.net).w = 200 ∧
      http.sentBody (out.p.loadFile Cluster.transport fileName out.net).w = payload := by
  have hinv := Reachable_Inv hp
  have hne : p.privateQueue ≠ [] := by
    intro h; rw [h] at hq; simp at hq
  have hacc := plainName_accepted fileName hplain
  have heq := saveFile_large Cluster.transport p fileName payload seed net hf hdb hq
    hinv.cursor_nonneg (hinv.cursor_lt hne) hn hacc
  have hplen : p.placement.length = 5 := cyclicFrom_length _ _ _ hne
  have hslen : (split5 payload).length = 5 := rfl
  have hfst : (p.placement.zip (split5 payload)).map Prod.fst = p.placement := by
    rw [← List.unzip_fst, List.unzip_zip (by rw [hplen, hslen])]
  have hsnd : (p.placement.zip (split5 payload)).map Prod.snd = split5 payload := by
    rw [← List.unzip_snd, List.unzip_zip (by rw [hplen, hslen])]
  have hzlen : (p.placement.zip (split5 payload)).length = 5 := by
    rw [List.length_zip, hplen, hslen]; rfl
  have hitems : ∀ x ∈ p.placement.zip (split5 payload),
      net.Live ((p.reserve fileName seed).addrOf x.1) := by
    intro x hx
    have hx1 : x.1 ∈ p.placement := by
      rw [← hfst]; exact List.mem_map_of_mem _ hx
    exact hlive _ (cyclicFrom_mem _ _ _ _ hx1)
  obtain ⟨hs1, -, -, hs4⟩ := sendAll_cluster (p.reserve fileName seed) fileName
    (p.placement.zip (split5 payload)) 0 net hitems (by rw [hzlen])
  have hnofail : ((p.reserve fileName seed).sendAll Cluster.transport fileName
      (p.placement.zip (split5 payload)) 0 net).1.any ChunkCall.failed = false := by
    rw [List.any_eq_false]
    intro call hcall
    simp [hs1 call hcall]
  rw [hnofail] at heq
  refine ⟨_, heq, rfl, ?_⟩
  have hl : List.lookup fileName ((fileName, p.placement) :: p.fileDb) = some p.placement := by
    rw [lookup_cons_ite, if_pos rfl]
  obtain ⟨hw, hbuf⟩ := loadLoop_cluster (p.reserve fileName seed) fileName
    ((p.reserve fileName seed).sendAll Cluster.transport fileName
      (p.placement.zip (split5 payload)) 0 net).2 hacc
    (p.placement.zip (split5 payload)) 0 [] (by rw [hzlen]) (by
      intro k x hx
      exact hs4 k x hx)
  rw [hfst] at hw hbuf
  rw [hsnd, split5_flatten] at hbuf
  have hload : ((p.reserve fileName seed).loadFile Cluster.transport fileName
      ((p.reserve fileName seed).sendAll Cluster.transport fileName
        (p.placement.zip (split5 payload)) 0 net).2).w =
      [http.Call.Write payload,
       http.Call.HeaderSet "content-type" "application/octet-stream",
       http.Call.WriteHeader http.StatusOK] := by
    have hl2 : List.lookup fileName (p.reserve fileName seed).fileDb = some p.placement := hl
    simp only [Public.loadFile, checkFileName, hf, if_false, hl2]
    rw [hw, hbuf]
    rfl
  show http.sentStatus ((p.reserve fileName seed).loadFile Cluster.transport fileName _).w = 200 ∧
    http.sentBody ((p.reserve fileName seed).loadFile Cluster.transport fileName _).w = payload
  rw [hload]
  refine ⟨rfl, ?_⟩
  simp [http.sentBody, http.sentStatus, http.bodyAllowedForStatus, http.written, http.StatusOK]

/-- The outcome of an admitted write of at least five bytes for whose chunk names
`http.NewRequest` builds a request, whatever the nodes answer: `saveFile` answers with the one call `WriteHeader(204)` when none of the
five calls of `saveChunk` returned an error, and with the body "cant save file"
followed by `WriteHeader(503)` when one of them did. -/
theorem write_outcome_large {ω : Type} (T : Transport ω) (p : Public) (fileName : String)
    (payload : Bytes) (seed : Nat) (net : ω) (hp : Reachable p) (hf : fileName ≠ "")
    (hdb : p.fileDb.lookup fileName = none) (hq : 5 ≤ p.privateQueue.length)
    (hn : 5 ≤ payload.length) (hreq : T.Accepts fileName) :
    ∃ out, p.saveFile T fileName (Except.ok payload) seed net = Except.ok out ∧
      (out.chunks.any ChunkCall.failed = false →
        out.w = [http.Call.WriteHeader http.StatusNoContent]) ∧
      (out.chunks.any ChunkCall.failed = true →
        out.w = [http.Call.Write (bytesOf "cant save file"),
                 http.Call.WriteHeader http.StatusServiceUnavailable]) := by
  have hinv := Reachable_Inv hp
  have hne : p.privateQueue ≠ [] := by
    intro h; rw [h] at hq; simp at hq
  have heq := saveFile_large T p fileName payload seed net hf hdb hq hinv.cursor_nonneg
    (hinv.cursor_lt hne) hn hreq
  refine ⟨_, heq, ?_, ?_⟩
  · intro h
    show (if _ then _ else _) = _
    rw [if_neg (by rw [h]; simp)]
  · intro h
    show (if _ then _ else _) = _
    rw [if_pos h]

/-! ## The claims at concrete inputs -/

theorem down_accepts (fileName : String)
    (h : ∀ name ∈ chunkNames fileName, urlAccepted name = true) :
    Transport.down.Accepts fileName :=
  fun _ name hname => h name hname

theorem testPlaced_reachable : Reachable testPlaced :=
  @Steps.saveFile NewInstance Unit Transport.down fiveNodes "test"
    (Except.ok [1, 2, 3, 4, 5, 6, 7]) 0 () ⟨testPlaced, _, _, ()⟩ fiveNodes_reachable rfl

/-- C1 at payloads of fewer than five bytes. Five nodes with empty directories are
registered; the write of the three bytes 1, 2, 3 under the name "test" sends one
chunk, to the first node of the placement. The read of "test" then asks the first
node for chunk 0 and the second for chunk 1, which was never sent, and the body
it answers with is the text "something wrong" followed by the three bytes, not
the payload. The same with the empty payload. -/
theorem round_trip_small :
    (∃ out, fiveNodes.saveFile Cluster.transport "test" (Except.ok [1, 2, 3]) 0 fiveDirs
        = Except.ok out ∧
      out.chunks = [ChunkCall.save "0000" [1, 2, 3] "test" 0 none] ∧
      (out.p.loadFile Cluster.transport "test" out.net).chunks =
        [ChunkCall.load "0000" "test" 0 (some [1, 2, 3]), ChunkCall.load "0001" "test" 1 none] ∧
      http.sentBody (out.p.loadFile Cluster.transport "test" out.net).w =
        bytesOf "something wrong" ++ [1, 2, 3] ∧
      http.sentBody (out.p.loadFile Cluster.transport "test" out.net).w ≠ [1, 2, 3]) ∧
    (∃ out, fiveNodes.saveFile Cluster.transport "test" (Except.ok []) 0 fiveDirs
        = Except.ok out ∧
      http.sentBody (out.p.loadFile Cluster.transport "test" out.net).w =
        bytesOf "something wrong" ∧
      http.sentBody (out.p.loadFile Cluster.transport "test" out.net).w ≠ []) :=
  ⟨⟨_, rfl, by decide, by decide, by decide, by decide⟩, ⟨_, rfl, by decide, by decide⟩⟩

theorem split_exactness_witness :
    Reachable fiveNodes ∧ "test" ≠ "" ∧ fiveNodes.fileDb.lookup "test" = none ∧
    5 ≤ fiveNodes.privateQueue.length ∧ 5 ≤ ([1, 2, 3, 4, 5, 6, 7] : Bytes).length ∧
    Transport.down.Accepts "test" ∧
    ∃ out privs,
      fiveNodes.saveFile Transport.down.recording "test" (Except.ok [1, 2, 3, 4, 5, 6, 7]) 0
        ((), []) = Except.ok out ∧
      out.p.fileDb.lookup "test" = some privs ∧
      out.chunks.length = 5 ∧
      (∀ call ∈ out.chunks, ∃ id chunk i err, call = ChunkCall.save id chunk "test" i err) ∧
      out.chunks.map ChunkCall.id = privs ∧
      out.chunks.map ChunkCall.chunkInd = [0, 1, 2, 3, 4] ∧
      out.chunks.map (fun call => call.bytes.length) =
        [([1, 2, 3, 4, 5, 6, 7] : Bytes).length / 5, ([1, 2, 3, 4, 5, 6, 7] : Bytes).length / 5,
         ([1, 2, 3, 4, 5, 6, 7] : Bytes).length / 5, ([1, 2, 3, 4, 5, 6, 7] : Bytes).length / 5,
         ([1, 2, 3, 4, 5, 6, 7] : Bytes).length
           - 4 * (([1, 2, 3, 4, 5, 6, 7] : Bytes).length / 5)] ∧
      (out.chunks.map ChunkCall.bytes).flatten = [1, 2, 3, 4, 5, 6, 7] ∧
      out.net.2.map WireRequest.method = ["PUT", "PUT", "PUT", "PUT", "PUT"] ∧
      out.net.2.map WireRequest.addr = privs.map fiveNodes.addrOf ∧
      out.net.2.map WireRequest.name =
        ["test" ++ ".00", "test" ++ ".01", "test" ++ ".02", "test" ++ ".03", "test" ++ ".04"] ∧
      out.net.2.map WireRequest.body = out.chunks.map ChunkCall.bytes :=
  ⟨fiveNodes_reachable, by decide, by decide, by decide, by decide,
    down_accepts "test" (by decide),
    split_exactness Transport.down fiveNodes "test" [1, 2, 3, 4, 5, 6, 7] 0 ()
      fiveNodes_reachable (by decide) (by decide) (by decide) (by decide)
      (down_accepts "test" (by decide))⟩

/-- C2 at a name the source does not encode. Five nodes are registered and the
write is of the seven bytes 1 to 7 under a name with a line feed, as the request
`PUT /?filename=a%0Ab` gives it: the write passes the name, duplicate and quorum
checks and its placement is stored, `http.NewRequest` refuses the URL of the
first chunk, and `saveChunk` ends the process through `logger.Fatal`: no call of
`saveChunk` has returned and no request has reached the network, where the claim
has five transfers. -/
theorem split_exactness_refused_name :
    "a\nb" ≠ "" ∧ fiveNodes.fileDb.lookup "a\nb" = none ∧
    5 ≤ fiveNodes.privateQueue.length ∧ 5 ≤ ([1, 2, 3, 4, 5, 6, 7] : Bytes).length ∧
    Transport.down.NewRequest (fiveNodes.addrOf "0000") (chunkName "a\nb" 0) = false ∧
    ∃ out,
      fiveNodes.saveFile Transport.down.recording "a\nb" (Except.ok [1, 2, 3, 4, 5, 6, 7]) 0
        ((), []) = Except.error (Abort.fatal out) ∧
      (out.p.fileDb.lookup "a\nb").isSome ∧
      out.chunks = [] ∧
      out.net.2 = [] :=
  ⟨by decide, by decide, by decide, by decide, by decide, _, rfl, by decide, by decide,
    by decide⟩

/-- C3 at a payload of fewer than five bytes. Five nodes are registered and none
of them answers; the write of the one byte 1 under the name "test" is admitted,
the one call of `saveChunk` returns an error, and `saveFile` returns without a
call on the response writer: the client gets the status 200 and an empty body. -/
theorem small_write_failure_unreported :
    ∃ out, fiveNodes.saveFile Transport.down "test" (Except.ok [1]) 0 () = Except.ok out ∧
      out.chunks = [ChunkCall.save "0000" [1] "test" 0 (some "connection refused")] ∧
      out.chunks.any ChunkCall.failed = true ∧
      out.w = [] ∧
      http.sentStatus out.w = 200 ∧
      http.sentBody out.w = [] :=
  ⟨_, rfl, by decide, by decide, by decide, by decide, by decide⟩

/-- C4 as the claim has it fails. Five nodes are registered, the cursor is 0 and
the draw is 0: the cursor becomes 1 and the placement stored starts with the node
at position 0 of the queue, "0000", not with the node at the new cursor,
"0001". -/
theorem placement_start_counterexample :
    ∃ out privs,
      fiveNodes.saveFile Transport.down "test" (Except.ok [1, 2, 3, 4, 5, 6, 7]) 0 ()
        = Except.ok out ∧
      fiveNodes.currentIdx = 0 ∧
      out.p.currentIdx = 1 ∧
      out.p.fileDb.lookup "test" = some privs ∧
      privs = ["0000", "0001", "0002", "0003", "0004"] ∧
      ¬ (∀ i : Nat, i < 5 →
          privs[i]? = fiveNodes.privateQueue[((out.p.currentIdx + i) % 5).toNat]?) :=
  ⟨_, _, rfl, by decide, by decide, rfl, by decide, by decide⟩

theorem placement_start_witness :
    "test" ≠ "" ∧ fiveNodes.fileDb.lookup "test" = none ∧ 5 ≤ fiveNodes.privateQueue.length ∧
    0 ≤ fiveNodes.currentIdx ∧ fiveNodes.currentIdx < (fiveNodes.privateQueue.length : Int) ∧
    1 < fiveNodes.privateQueue.length / 2 ∧
    (rand.Intn ((fiveNodes.privateQueue.length : Int) >>> (1 : Nat)) 1 = Except.ok ((1 : Nat) : Int) ∧
    ∃ out privs,
      (fiveNodes.saveFile Transport.down "test" (Except.ok [1, 2, 3, 4, 5, 6, 7]) 1 ()
          = Except.ok out ∨
        fiveNodes.saveFile Transport.down "test" (Except.ok [1, 2, 3, 4, 5, 6, 7]) 1 ()
          = Except.error (Abort.fatal out)) ∧
      (Transport.down.Accepts "test" →
        fiveNodes.saveFile Transport.down "test" (Except.ok [1, 2, 3, 4, 5, 6, 7]) 1 ()
          = Except.ok out) ∧
      out.p.currentIdx =
        (fiveNodes.currentIdx + 1 + ((1 : Nat) : Int)) % (fiveNodes.privateQueue.length : Int) ∧
      out.p.fileDb.lookup "test" = some privs ∧
      privs.length = 5 ∧
      ∀ i : Nat, i < 5 →
        privs[i]? =
          fiveNodes.privateQueue[
            ((fiveNodes.currentIdx + i) % (fiveNodes.privateQueue.length : Int)).toNat]?) :=
  ⟨by decide, by decide, by decide, by decide, by decide, by decide,
    placement_start Transport.down fiveNodes "test" (Except.ok [1, 2, 3, 4, 5, 6, 7]) 1 ()
      (by decide) (by decide) (by decide) (by decide) (by decide) (by decide)⟩

theorem no_overwrite_witness :
    Reachable testPlaced ∧ (testPlaced.fileDb.lookup "test").isSome ∧
    testPlaced.saveFile Transport.down "test" (Except.ok [9, 9]) 3 () =
      Except.ok ⟨testPlaced,
        [http.Call.Write (bytesOf "file already exists and cannot be rewritten"),
         http.Call.WriteHeader http.StatusBadRequest], [], ()⟩ ∧
    (∀ q, Steps testPlaced q →
      q.fileDb.lookup "test" = testPlaced.fileDb.lookup "test" ∧
      q.saveFile Transport.down "test" (Except.ok [9, 9]) 3 () =
        Except.ok ⟨q,
          [http.Call.Write (bytesOf "file already exists and cannot be rewritten"),
           http.Call.WriteHeader http.StatusBadRequest], [], ()⟩) :=
  ⟨testPlaced_reachable, by decide,
    (no_overwrite testPlaced "test" testPlaced_reachable).1 (by decide) Transport.down _ 3 (),
    fun q hq =>
      ⟨((no_overwrite fiveNodes "test" fiveNodes_reachable).2 Transport.down
          (Except.ok [1, 2, 3, 4, 5, 6, 7]) 0 () ⟨testPlaced, _, _, ()⟩ rfl (by decide) q hq).1,
       ((no_overwrite fiveNodes "test" fiveNodes_reachable).2 Transport.down
          (Except.ok [1, 2, 3, 4, 5, 6, 7]) 0 () ⟨testPlaced, _, _, ()⟩ rfl (by decide) q hq).2
          Transport.down _ 3 ()⟩⟩

theorem quorum_gating_witness :
    (Reachable fourNodes ∧ "test" ≠ "" ∧ fourNodes.fileDb.lookup "test" = none ∧
      fourNodes.privateQueue.length < 5 ∧
      fourNodes.saveFile Transport.down "test" (Except.ok [1, 2, 3, 4, 5, 6, 7]) 0 () =
        Except.ok ⟨fourNodes, [http.Call.Write (bytesOf "no quorum, service not ready"),
          http.Call.WriteHeader http.StatusServiceUnavailable], [], ()⟩) ∧
    (Reachable fiveNodes ∧ "test" ≠ "" ∧ fiveNodes.fileDb.lookup "test" = none ∧
      fiveNodes.privateQueue.length = 5 ∧ Transport.down.Accepts "test" ∧
      ∃ out privs a,
        fiveNodes.saveFile Transport.down.recording "test" (Except.ok [1, 2, 3, 4, 5, 6, 7]) 0
          ((), []) = Except.ok out ∧
        out.p.fileDb.lookup "test" = some privs ∧
        out.p.privateQueue = fiveNodes.privateQueue ∧
        privs.head? = some a ∧
        out.net.2.head? =
          some ⟨"PUT", fiveNodes.addrOf a, "test" ++ ".00",
            if ([1, 2, 3, 4, 5, 6, 7] : Bytes).length < 5 then [1, 2, 3, 4, 5, 6, 7]
            else ([1, 2, 3, 4, 5, 6, 7] : Bytes).take
              (([1, 2, 3, 4, 5, 6, 7] : Bytes).length / 5)⟩ ∧
        out.chunks ≠ [] ∧
        ∀ call ∈ out.chunks, ∃ id chunk i err, call = ChunkCall.save id chunk "test" i err) :=
  ⟨⟨fourNodes_reachable, by decide, by decide, by decide,
      (quorum_gating Transport.down fourNodes "test" [1, 2, 3, 4, 5, 6, 7] 0 ()
        fourNodes_reachable (by decide) (by decide)).1 (by decide)⟩,
   ⟨fiveNodes_reachable, by decide, by decide, by decide, down_accepts "test" (by decide),
      (quorum_gating Transport.down fiveNodes "test" [1, 2, 3, 4, 5, 6, 7] 0 ()
        fiveNodes_reachable (by decide) (by decide)).2 (by decide)
        (down_accepts "test" (by decide))⟩⟩

/-- C6 at a name the source does not encode. Exactly five nodes are registered
and the write is of the one byte 1 under a name with a line feed, as the request
`PUT /?filename=a%0Ab` gives it, a name that is not empty and not yet placed: the
entry for the name is made, but `http.NewRequest` refuses the URL of the chunk
and `saveChunk` ends the process through `logger.Fatal` before any request
reaches the network, where the claim has the write admitted and a transfer
attempted. -/
theorem quorum_gating_refused_name :
    "a\nb" ≠ "" ∧ fiveNodes.fileDb.lookup "a\nb" = none ∧
    fiveNodes.privateQueue.length = 5 ∧
    ∃ out,
      fiveNodes.saveFile Transport.down.recording "a\nb" (Except.ok [1]) 0 ((), [])
        = Except.error (Abort.fatal out) ∧
      (out.p.fileDb.lookup "a\nb").isSome ∧
      out.chunks = [] ∧
      out.net.2 = [] :=
  ⟨by decide, by decide, by decide, _, rfl, by decide, by decide, by decide⟩

/-- C7 on the code. The calls the coordinator makes on the response writer on its
four rejections are a `Write` of the message followed by `WriteHeader` with 400,
400, 503 and 404; the `Write` comes first, so the status the client gets is 200
each time. -/
theorem rejection_status_sent :
    (∃ out, fiveNodes.handler Transport.down (Request.put "" [1]) 0 () = Except.ok out ∧
      out.w = [http.Call.Write (bytesOf "file name can not be empty"),
               http.Call.WriteHeader 400] ∧
      http.sentStatus out.w = 200) ∧
    (∃ out, fiveNodes.handler Transport.down (Request.get "") 0 () = Except.ok out ∧
      out.w = [http.Call.Write (bytesOf "file name can not be empty"),
               http.Call.WriteHeader 400] ∧
      http.sentStatus out.w = 200) ∧
    (∃ out, testPlaced.handler Transport.down (Request.put "test" [1]) 0 () = Except.ok out ∧
      out.w = [http.Call.Write (bytesOf "file already exists and cannot be rewritten"),
               http.Call.WriteHeader 400] ∧
      http.sentStatus out.w = 200) ∧
    (∃ out, fourNodes.handler Transport.down (Request.put "test" [1]) 0 () = Except.ok out ∧
      out.w = [http.Call.Write (bytesOf "no quorum, service not ready"),
               http.Call.WriteHeader 503] ∧
      http.sentStatus out.w = 200) ∧
    (∃ out, fiveNodes.handler Transport.down (Request.get "test") 0 () = Except.ok out ∧
      out.w = [http.Call.Write (bytesOf "file not found"), http.Call.WriteHeader 404] ∧
      http.sentStatus out.w = 200) :=
  ⟨⟨_, rfl, by decide, by decide⟩, ⟨_, rfl, by decide, by decide⟩,
   ⟨_, rfl, by decide, by decide⟩, ⟨_, rfl, by decide, by decide⟩,
   ⟨_, rfl, by decide, by decide⟩⟩

/-- C8 on the code. Five nodes hold the five chunks of the seven bytes 1 to 7
written under the name "test"; then the third node stops listening. The read of
"test" calls `loadChunk` for the chunks 0, 1 and 2 and for no other, the third
call fails, and the calls on the response writer are the text "something wrong",
`WriteHeader(500)`, then a `Write` of the bytes of the chunks 0 and 1 and
`WriteHeader(200)`: the client gets the status 200 and a body that holds the
bytes 1 and 2 of the chunks that were fetched. -/
theorem read_abort_body :
    ∃ out, fiveNodes.saveFile Cluster.transport "test" (Except.ok [1, 2, 3, 4, 5, 6, 7]) 0
        fiveDirs = Except.ok out ∧
      (out.p.loadFile Cluster.transport "test"
          (Function.update out.net ⟨"127.0.0.1", 8102⟩ none)).chunks =
        [ChunkCall.load "0000" "test" 0 (some [1]), ChunkCall.load "0001" "test" 1 (some [2]),
         ChunkCall.load "0002" "test" 2 none] ∧
      (out.p.loadFile Cluster.transport "test"
          (Function.update out.net ⟨"127.0.0.1", 8102⟩ none)).w =
        [http.Call.Write (bytesOf "something wrong"), http.Call.WriteHeader 500,
         http.Call.Write [1, 2],
         http.Call.HeaderSet "content-type" "application/octet-stream",
         http.Call.WriteHeader 200] ∧
      http.sentStatus (out.p.loadFile Cluster.transport "test"
          (Function.update out.net ⟨"127.0.0.1", 8102⟩ none)).w = 200 ∧
      http.sentBody (out.p.loadFile Cluster.transport "test"
          (Function.update out.net ⟨"127.0.0.1", 8102⟩ none)).w =
        bytesOf "something wrong" ++ [1, 2] :=
  ⟨_, rfl, by decide, by decide, by decide, by decide⟩

theorem placement_well_defined_witness :
    Reachable testPlaced ∧
    (0 ≤ testPlaced.currentIdx ∧
      (testPlaced.privateQueue ≠ [] →
        testPlaced.currentIdx < (testPlaced.privateQueue.length : Int))) ∧
    0 < ((testPlaced.privateQueue.length : Int) >>> (1 : Nat)) ∧
    (∃ r, rand.Intn ((testPlaced.privateQueue.length : Int) >>> (1 : Nat)) 7 = Except.ok r) ∧
    ∃ privs, placeLoop testPlaced.privateQueue 5 testPlaced.currentIdx [] = Except.ok privs ∧
      privs.length = 5 ∧ privs.Nodup ∧
      (∀ id ∈ privs, id ∈ testPlaced.privateQueue ∧ (testPlaced.privateSet.lookup id).isSome) ∧
      (∀ e, testPlaced.saveFile Transport.down "a\nb" (Except.ok [1, 2, 3]) 7 ()
        ≠ Except.error (Abort.panic e)) ∧
      ∃ out, (testPlaced.saveFile Transport.down "a\nb" (Except.ok [1, 2, 3]) 7 ()
            = Except.ok out ∨
          testPlaced.saveFile Transport.down "a\nb" (Except.ok [1, 2, 3]) 7 ()
            = Except.error (Abort.fatal out)) ∧
        out.p.fileDb.lookup "a\nb" = some privs :=
  ⟨testPlaced_reachable, (placement_well_defined testPlaced testPlaced_reachable).1,
    (placement_well_defined testPlaced testPlaced_reachable).2 Transport.down "a\nb"
      (Except.ok [1, 2, 3]) 7 () (by decide) (by decide) (by decide)⟩

end Storage
